import Mathlib

/-!
Assertion, schema-validation and factory helpers of the API test harness

A shallow embedding of `src/utils/assertions.js`, `src/utils/schemaValidator.js`,
`src/utils/testDataFactory.js` and the custom matchers of `tests/setup.js`.

Conventions of the embedding
* A JavaScript value is a `JsVal`.  Numbers are the integer-valued ones (`Int`);
  arithmetic and the comparison of numbers are those of binary64 (`Float64`).
  A string is a `String`, measured and indexed in UTF-16 code units as the language
  does; the one-unit string holding half of a surrogate pair, which an index read can
  return, is the value `surrogate`.
* Arrays and objects carry a reference tag: `===` on them is identity, so two
  values with different tags are different objects even with equal contents.
* An object is its list of own properties (first entry wins on lookup).
* A call that throws returns `Except.error`; `Thrown.error m` is `new Error(m)`
  and `Thrown.typeError` is the `TypeError` the engine raises by itself.
* The value of `Math.random()` is an argument of the generators that draw one.
* Where a claim is about what a call does to its data, the data lives in a store and
  the call is a computation over it (`Store`).
-/

namespace ApiHarness

/-- JavaScript values that can occur in a parsed response or a test literal. -/
inductive JsVal where
  | undefined
  | null
  | bool (b : Bool)
  | num (n : Int)
  | str (s : String)
  | surrogate (unit : Nat)
  | arr (ref : Nat) (items : List JsVal)
  | obj (ref : Nat) (props : List (String × JsVal))

/-- What a call can throw. -/
inductive Thrown where
  | error (message : String)
  | typeError
  deriving DecidableEq, Repr

abbrev Props := List (String × JsVal)

/-- The UTF-16 code units of a character: one below `U+10000`, a surrogate pair
from there on. -/
def unitsOfChar (c : Char) : List Nat :=
  if c.toNat < 65536 then [c.toNat]
  else [55296 + (c.toNat - 65536) / 1024, 56320 + (c.toNat - 65536) % 1024]

/-- The UTF-16 code units of a list of characters. -/
def unitsOfChars : List Char → List Nat
  | [] => []
  | c :: cs => unitsOfChar c ++ unitsOfChars cs

/-- The UTF-16 code units of a string: what `length` counts and an index selects. -/
def codeUnits (s : String) : List Nat :=
  unitsOfChars s.toList

/-- The code unit is half of a surrogate pair. -/
def isSurrogateUnit (u : Nat) : Bool :=
  55296 ≤ u && u < 57344

/-- The character a message shows for a code unit: the unit itself, `U+FFFD` for half
of a surrogate pair, which no text can hold. -/
def charOfUnit (u : Nat) : Char :=
  if isSurrogateUnit u then Char.ofNat 65533 else Char.ofNat u

namespace JsVal

/-- The one-unit string an index read returns for a code unit. -/
def ofUnit (u : Nat) : JsVal :=
  if isSurrogateUnit u then surrogate u else str (String.mk [Char.ofNat u])

/-- The values for which `!v` is `true`. -/
def falsy : JsVal → Bool
  | undefined => true
  | null => true
  | bool b => !b
  | num n => n == 0
  | str s => s == ""
  | surrogate _ => false
  | arr _ _ => false
  | obj _ _ => false

/-- Embedding of `Array.isArray(v)`. -/
def isArray : JsVal → Bool
  | arr _ _ => true
  | _ => false

/-- Strict equality `a === b`: primitives by type and value, arrays and objects by identity. -/
def strictEq : JsVal → JsVal → Bool
  | undefined, undefined => true
  | null, null => true
  | bool a, bool b => a == b
  | num a, num b => a == b
  | str a, str b => a == b
  | surrogate a, surrogate b => a == b
  | str a, surrogate b => codeUnits a == [b]
  | surrogate a, str b => [a] == codeUnits b
  | arr r _, arr q _ => r == q
  | obj r _, obj q _ => r == q
  | _, _ => false

/-- Own property lookup in a property list. -/
def lookupProp (k : String) : Props → Option JsVal
  | [] => none
  | (k', v) :: rest => if k' == k then some v else lookupProp k rest

/-- The assignment `value[key] = v` on a property list: an existing property keeps
its place, a new one goes last. -/
def setProp (key : String) (v : JsVal) : Props → Props
  | [] => [(key, v)]
  | (k, w) :: rest => if k == key then (k, v) :: rest else (k, w) :: setProp key v rest

/-- The statement `delete value[key]` on a property list. -/
def removeProp (key : String) (ps : Props) : Props :=
  ps.filter (fun p => !(p.1 == key))

/-- Own-key test on a property list. -/
def hasKey (k : String) (ps : Props) : Bool :=
  ps.any (fun p => p.1 == k)

/-- The array index a property name denotes among `len` elements: the name must
be the canonical decimal numeral of an index below `len`. -/
def indexOfName (k : String) (len : Nat) : Option Nat :=
  (List.range len).find? (fun i => toString i == k)

/-- The call `Object.prototype.hasOwnProperty.call(v, k)` for a non-nullish `v`: keys of an
object, indices and `length` of an array or of a string (a string has one index for
each UTF-16 code unit); the wrappers of numbers and booleans own nothing. -/
def ownProperty (v : JsVal) (k : String) : Bool :=
  match v with
  | obj _ ps => hasKey k ps
  | arr _ items => k == "length" || (indexOfName k items.length).isSome
  | str s => k == "length" || (indexOfName k (codeUnits s).length).isSome
  | surrogate _ => k == "length" || (indexOfName k 1).isSome
  | _ => false

/-- The method call `v.hasOwnProperty(k)`.  On `undefined` and `null` the member
access throws; an object whose own property named `hasOwnProperty` hides the
inherited method holds a value that is not callable, so the call throws too. -/
def hasOwnProperty (v : JsVal) (k : String) : Except Thrown Bool :=
  match v with
  | undefined => .error .typeError
  | null => .error .typeError
  | obj _ ps => if hasKey "hasOwnProperty" ps then .error .typeError else .ok (hasKey k ps)
  | w => .ok (ownProperty w k)

/-- The read `v[k]` of an own property (the loops read only after the own-property
test succeeded); anything else reads as `undefined`. -/
def getProp (v : JsVal) (k : String) : JsVal :=
  match v with
  | obj _ ps => (lookupProp k ps).getD undefined
  | arr _ items =>
    if k == "length" then num items.length
    else match indexOfName k items.length with
      | some i => items.getD i undefined
      | none => undefined
  | str s =>
    if k == "length" then num (codeUnits s).length
    else match indexOfName k (codeUnits s).length with
      | some i => ofUnit ((codeUnits s).getD i 0)
      | none => undefined
  | surrogate u =>
    if k == "length" then num 1
    else match indexOfName k 1 with
      | some _ => surrogate u
      | none => undefined
  | _ => undefined

mutual
/-- String conversion of a template literal.  A plain object converts through the
inherited `toString`; if an own property named `toString` hides it the value found
is not callable and the inherited `valueOf` returns no primitive, a `TypeError`
(here `none`).  Half of a surrogate pair shows as `U+FFFD`. -/
def toStr : JsVal → Option String
  | undefined => some "undefined"
  | null => some "null"
  | bool b => some (if b then "true" else "false")
  | num n => some (toString n)
  | str s => some s
  | surrogate u => some (String.mk [charOfUnit u])
  | arr _ items => joinItems items
  | obj _ ps => if hasKey "toString" ps then none else some "[object Object]"
termination_by structural v => v
/-- The call `Array.prototype.join` with the default separator: `null` and `undefined`
elements contribute the empty string. -/
def joinItems : List JsVal → Option String
  | [] => some ""
  | x :: rest =>
    match (match x with
           | undefined => some ""
           | null => some ""
           | v => toStr v), joinItems rest with
    | some a, some b => some (if rest.isEmpty then a else a ++ "," ++ b)
    | _, _ => none
termination_by structural l => l
end

end JsVal

open JsVal

/-- Splitting a list of characters at every `.`; the result is never empty. -/
def splitDots : List Char → List (List Char)
  | [] => [[]]
  | c :: cs =>
    if c == '.' then [] :: splitDots cs
    else match splitDots cs with
      | [] => [[c]]
      | seg :: segs => (c :: seg) :: segs

/-- Embedding of `propertyPath.split('.')`. -/
def splitPath (propertyPath : String) : List String :=
  (splitDots propertyPath.toList).map String.mk

/-- A template literal with every substitution already converted; `none` when a
conversion threw. -/
def template (parts : List (Option String)) : Except Thrown String :=
  match parts.foldr (fun p acc => match p, acc with
      | some a, some b => some (a ++ b)
      | _, _ => none) (some "") with
  | some s => .ok s
  | none => .error .typeError

namespace ApiAssertions

/-- The `for` loop of `assertPropertyExists`: the final `current`, or what was thrown. -/
def assertPropertyExists.loop (propertyPath : String) :
    List String → JsVal → Except Thrown JsVal
  | [], current => .ok current
  | prop :: rest, current =>
    if current.falsy then
      .error (.error ("Property " ++ propertyPath ++ " does not exist in response"))
    else match current.hasOwnProperty prop with
      | .error e => .error e
      | .ok false =>
        .error (.error ("Property " ++ propertyPath ++ " does not exist in response"))
      | .ok true => assertPropertyExists.loop propertyPath rest (current.getProp prop)

/-- Embedding of `ApiAssertions.assertPropertyExists(data, propertyPath)`. -/
def assertPropertyExists (data : JsVal) (propertyPath : String) : Except Thrown Unit :=
  match assertPropertyExists.loop propertyPath (splitPath propertyPath) data with
  | .ok _ => .ok ()
  | .error e => .error e

/-- The `for` loop of `assertPropertyValue`: the final `current`, or what was thrown. -/
def assertPropertyValue.loop (propertyPath : String) :
    List String → JsVal → Except Thrown JsVal
  | [], current => .ok current
  | prop :: rest, current =>
    if current.falsy then
      .error (.error ("Property " ++ propertyPath ++ " does not exist in response"))
    else match current.hasOwnProperty prop with
      | .error e => .error e
      | .ok false =>
        .error (.error ("Property " ++ propertyPath ++ " does not exist in response"))
      | .ok true => assertPropertyValue.loop propertyPath rest (current.getProp prop)

/-- Embedding of `ApiAssertions.assertPropertyValue(data, propertyPath, expectedValue)`. -/
def assertPropertyValue (data : JsVal) (propertyPath : String) (expectedValue : JsVal) :
    Except Thrown Unit :=
  match assertPropertyValue.loop propertyPath (splitPath propertyPath) data with
  | .error e => .error e
  | .ok current =>
    if !(current.strictEq expectedValue) then
      match template [some "Expected ", some propertyPath, some " to be ",
                      expectedValue.toStr, some ", but got ", current.toStr] with
      | .ok m => .error (.error m)
      | .error e => .error e
    else .ok ()

/-- Embedding of `ApiAssertions.assertArrayLength(array, expectedLength)`. -/
def assertArrayLength (array : JsVal) (expectedLength : JsVal) : Except Thrown Unit :=
  match array with
  | .arr _ items =>
    if !((JsVal.num items.length).strictEq expectedLength) then
      match template [some "Expected array length ", expectedLength.toStr,
                      some ", but got ", (JsVal.num items.length).toStr] with
      | .ok m => .error (.error m)
      | .error e => .error e
    else .ok ()
  | _ => .error (.error "Expected an array")

/-- Embedding of `ApiAssertions.assertArrayNotEmpty(array)`. -/
def assertArrayNotEmpty (array : JsVal) : Except Thrown Unit :=
  match array with
  | .arr _ items =>
    if (JsVal.num items.length).strictEq (.num 0) then
      .error (.error "Expected array to not be empty")
    else .ok ()
  | _ => .error (.error "Expected an array")

end ApiAssertions

/-- The part of an HTTP response the helpers read; `config` is `undefined` when the
request configuration is not echoed. -/
structure Response where
  status : JsVal
  headers : Props
  data : JsVal
  config : JsVal

namespace ApiAssertions

/-- Embedding of `ApiAssertions.assertStatusCode(response, expectedStatus)`. -/
def assertStatusCode (response : Response) (expectedStatus : JsVal) : Except Thrown Unit :=
  if !(response.status.strictEq expectedStatus) then
    match template [some "Expected status ", expectedStatus.toStr,
                    some ", but got ", response.status.toStr] with
    | .ok m => .error (.error m)
    | .error e => .error e
  else .ok ()

end ApiAssertions

/-- What a custom matcher hands back to the test runner: the `pass` value and the
outcome of calling its `message` function. -/
structure MatcherResult where
  pass : JsVal
  message : Except Thrown String

namespace Matchers

/-- Embedding of `toHaveStatusCode(response, expectedStatus)` of `tests/setup.js`. -/
def toHaveStatusCode (response : Response) (expectedStatus : JsVal) : MatcherResult :=
  let pass := response.status.strictEq expectedStatus
  ⟨.bool pass,
   if pass then template [some "Expected status code not to be ", expectedStatus.toStr]
   else template [some "Expected status code ", expectedStatus.toStr,
                  some ", but got ", response.status.toStr]⟩

/-- The `for` loop of `toHaveProperty`: the final `pass`, or what was thrown. -/
def toHaveProperty.loop : List String → JsVal → Except Thrown Bool
  | [], _ => .ok true
  | prop :: rest, current =>
    if current.falsy then .ok false
    else match current.hasOwnProperty prop with
      | .error e => .error e
      | .ok false => .ok false
      | .ok true => toHaveProperty.loop rest (current.getProp prop)

/-- Embedding of `toHaveProperty(obj, propertyPath)` of `tests/setup.js`. -/
def toHaveProperty (obj : JsVal) (propertyPath : String) : Except Thrown MatcherResult :=
  match toHaveProperty.loop (splitPath propertyPath) obj with
  | .error e => .error e
  | .ok pass =>
    .ok ⟨.bool pass,
         if pass then template [some "Expected object not to have property ", some propertyPath]
         else template [some "Expected object to have property ", some propertyPath]⟩

end Matchers

/-! ## The validation library

`schemaValidator.js` delegates to the `joi` package.  The fragment of its validation
the four built-in schemas use is embedded here from the library's documented
behaviour: `Joi.number()`, `Joi.string()`, `.email()`, `Joi.object({...})`,
`.required()`, and the options `abortEarly`, `allowUnknown` (`convert` keeps its
default `true`).  The grammar of e-mail addresses is a parameter `isEmail`.
The copy of an object the library returns keeps the reference tag of its input:
the identity of that copy is not tracked. -/

namespace Joi

/-- One entry of `error.details`. -/
structure Detail where
  message : String
  path : List String
  type : String
  deriving DecidableEq, Repr

/-- The pair `{ error, value }` returned by `schema.validate`; `error` carries the
`details` of the validation error when there is one. -/
structure ValidationResult where
  error : Option (List Detail)
  value : JsVal

/-- The options `validateResponse` passes. -/
structure Options where
  abortEarly : Bool
  allowUnknown : Bool

/-- Schema descriptions: `Joi.number()`, `Joi.string()` with or without `.email()`,
`Joi.object({...})`, each with or without `.required()`. -/
inductive Schema where
  | number (required : Bool)
  | string (required : Bool) (email : Bool)
  | object (required : Bool) (keys : List (String × Schema))

/-- The label of an error message: the quoted dotted path, `"value"` at the root. -/
def label (path : List String) : String :=
  match path with
  | [] => "\"value\""
  | _ => "\"" ++ ".".intercalate path ++ "\""

/-- An error of the given type at a path: the label followed by the text. -/
def detail (type : String) (path : List String) (text : String) : Detail :=
  ⟨label path ++ text, path, type⟩

/-- The constant `Number.MAX_SAFE_INTEGER`. -/
def maxSafeInteger : Int := 9007199254740991

/-- Value of a non-empty run of decimal digits. -/
def digitsValue (cs : List Char) : Option Nat :=
  if cs.isEmpty || !cs.all Char.isDigit then none
  else some (cs.foldl (fun acc c => 10 * acc + (c.toNat - '0'.toNat)) 0)

/-- The number a string converts to, for the integer numerals: optional blanks, an
optional sign, decimal digits, optional blanks.  Numerals with a fraction or an
exponent denote numbers outside the integers of this embedding and are left alone. -/
def numberOfString (s : String) : Option Int :=
  let body := ((s.toList.dropWhile Char.isWhitespace).reverse.dropWhile Char.isWhitespace).reverse
  match body with
  | '-' :: ds => (digitsValue ds).map (fun n => - (n : Int))
  | '+' :: ds => (digitsValue ds).map (fun n => (n : Int))
  | ds => (digitsValue ds).map (fun n => (n : Int))

/-- Validation of one value against `Joi.number()`: a numeric string is converted
first; then presence, type and the safe-integer range are checked. -/
def checkNumber (required : Bool) (path : List String) (value : JsVal) :
    JsVal × List Detail :=
  let coerced := match value with
    | .str s => (match numberOfString s with
      | some n => JsVal.num n
      | none => value)
    | _ => value
  match coerced with
  | .undefined =>
    (.undefined, if required then [detail "any.required" path " is required"] else [])
  | .num n =>
    if n > maxSafeInteger || n < -maxSafeInteger then
      (.num n, [detail "number.unsafe" path " must be a safe number"])
    else (.num n, [])
  | v => (v, [detail "number.base" path " must be a number"])

/-- Validation of one value against `Joi.string()`: presence, type, the empty string
(not allowed by default), then the `email` rule when declared; a single code unit is
a string and no e-mail address. -/
def checkString (isEmail : String → Bool) (required email : Bool) (path : List String)
    (value : JsVal) : JsVal × List Detail :=
  match value with
  | .undefined =>
    (.undefined, if required then [detail "any.required" path " is required"] else [])
  | .str s =>
    if s == "" then (.str s, [detail "string.empty" path " is not allowed to be empty"])
    else if email && !isEmail s then
      (.str s, [detail "string.email" path " must be a valid email"])
    else (.str s, [])
  | .surrogate u =>
    if email then (.surrogate u, [detail "string.email" path " must be a valid email"])
    else (.surrogate u, [])
  | v => (v, [detail "string.base" path " must be a string"])

/-- The errors for the keys of the value that the schema does not declare. -/
def unknownDetails (declared : List String) (path : List String) (ps : Props) : List Detail :=
  (ps.filter (fun p => !declared.contains p.1)).map
    (fun p => detail "object.unknown" (path ++ [p.1]) " is not allowed")

mutual
/-- Validation of a value against a schema at a path: the resulting value and the
errors found. -/
def Schema.check (isEmail : String → Bool) (opts : Options) :
    Schema → List String → JsVal → JsVal × List Detail
  | .number required, path, value => checkNumber required path value
  | .string required email, path, value => checkString isEmail required email path value
  | .object required keys, path, value =>
    match value with
    | .undefined =>
      (.undefined, if required then [detail "any.required" path " is required"] else [])
    | .obj ref ps =>
      let r := checkKeys isEmail opts keys path ps
      if opts.abortEarly && !r.2.isEmpty then (.obj ref r.1, r.2)
      else
        let unknown :=
          if opts.allowUnknown then []
          else unknownDetails (keys.map Prod.fst) path r.1
        (.obj ref r.1, r.2 ++ (if opts.abortEarly then unknown.take 1 else unknown))
    | v => (v, [detail "object.base" path " must be of type object"])
termination_by structural s => s
/-- The loop over the declared keys of an object schema, on the copy of the value. -/
def checkKeys (isEmail : String → Bool) (opts : Options) :
    List (String × Schema) → List String → Props → Props × List Detail
  | [], _, ps => (ps, [])
  | kc :: rest, path, ps =>
    let item := (lookupProp kc.1 ps).getD .undefined
    let r := Schema.check isEmail opts kc.2 (path ++ [kc.1]) item
    if !r.2.isEmpty then
      if opts.abortEarly then (ps, r.2)
      else
        let ps1 := match r.1 with
          | .undefined => ps
          | v => setProp kc.1 v ps
        let q := checkKeys isEmail opts rest path ps1
        (q.1, r.2 ++ q.2)
    else match r.1, item with
      | .undefined, .undefined => checkKeys isEmail opts rest path ps
      | .undefined, _ => checkKeys isEmail opts rest path (removeProp kc.1 ps)
      | v, _ => checkKeys isEmail opts rest path (setProp kc.1 v ps)
termination_by structural l => l
end

/-- Embedding of `schema.validate(data, options)`. -/
def Schema.validate (isEmail : String → Bool) (schema : Schema) (data : JsVal)
    (opts : Options) : ValidationResult :=
  let r := schema.check isEmail opts [] data
  ⟨if r.2.isEmpty then none else some r.2, r.1⟩

end Joi

/-- Anything with a `validate(data, options)` method. -/
abbrev SchemaLike := JsVal → Joi.Options → Joi.ValidationResult

namespace SchemaValidator

/-- Embedding of `SchemaValidator.validateResponse(data, schema)`. -/
def validateResponse (data : JsVal) (schema : SchemaLike) : Except Thrown JsVal :=
  let r := schema data ⟨false, true⟩
  match r.error with
  | some details =>
    let errorMessages := details.map (fun d => d.message)
    .error (.error ("Schema validation failed: " ++ ", ".intercalate errorMessages))
  | none => .ok r.value

/-- Embedding of `SchemaValidator.assertSchema(data, schema)`. -/
def assertSchema (data : JsVal) (schema : SchemaLike) : Except Thrown Bool :=
  match validateResponse data schema with
  | .ok _ => .ok true
  | .error e => .error e

end SchemaValidator

/-! The built-in schemas of `schemaValidator.js`. -/

namespace schemas

def user : Joi.Schema :=
  .object false
    [("id", .number true),
     ("name", .string true false),
     ("username", .string true false),
     ("email", .string true true),
     ("address", .object false
        [("street", .string false false),
         ("suite", .string false false),
         ("city", .string false false),
         ("zipcode", .string false false),
         ("geo", .object false
            [("lat", .string false false),
             ("lng", .string false false)])]),
     ("phone", .string false false),
     ("website", .string false false),
     ("company", .object false
        [("name", .string false false),
         ("catchPhrase", .string false false),
         ("bs", .string false false)])]

def post : Joi.Schema :=
  .object false
    [("userId", .number true),
     ("id", .number true),
     ("title", .string true false),
     ("body", .string true false)]

def comment : Joi.Schema :=
  .object false
    [("postId", .number true),
     ("id", .number true),
     ("name", .string true false),
     ("email", .string true true),
     ("body", .string true false)]

def errorResponse : Joi.Schema :=
  .object false
    [("message", .string false false),
     ("error", .string false false),
     ("statusCode", .number false)]

end schemas

/-! ## The test-data factory

Every call builds new objects; `fresh` is the first unused reference tag. -/

namespace TestDataFactory

/-- The spread `...overrides` at the end of an object literal: each own property of
`overrides`, in order, is assigned onto the properties written so far. -/
def spread (literal overrides : Props) : Props :=
  overrides.foldl (fun acc p => setProp p.1 p.2 acc) literal

/-- The properties the literal of `generateUser` writes before the spread. -/
def userDefaults (fresh : Nat) : Props :=
  [("name", .str "Test User"),
   ("username", .str "testuser"),
   ("email", .str "test@example.com"),
   ("address", .obj (fresh + 1)
      [("street", .str "Test Street"),
       ("suite", .str "Apt. 1"),
       ("city", .str "Test City"),
       ("zipcode", .str "12345"),
       ("geo", .obj (fresh + 2) [("lat", .str "0.0"), ("lng", .str "0.0")])]),
   ("phone", .str "1-234-567-8900"),
   ("website", .str "test.com"),
   ("company", .obj (fresh + 3)
      [("name", .str "Test Company"),
       ("catchPhrase", .str "Testing made easy"),
       ("bs", .str "test business")])]

/-- The properties the literal of `generatePost` writes before the spread. -/
def postDefaults : Props :=
  [("title", .str "Test Post Title"),
   ("body", .str "This is a test post body"),
   ("userId", .num 1)]

/-- The properties the literal of `generateComment` writes before the spread. -/
def commentDefaults : Props :=
  [("name", .str "Test Comment"),
   ("email", .str "comment@example.com"),
   ("body", .str "This is a test comment"),
   ("postId", .num 1)]

/-- Embedding of `TestDataFactory.generateUser(overrides)`. -/
def generateUser (fresh : Nat) (overrides : Props) : JsVal :=
  .obj fresh (spread (userDefaults fresh) overrides)

/-- Embedding of `TestDataFactory.generatePost(overrides)`. -/
def generatePost (fresh : Nat) (overrides : Props) : JsVal :=
  .obj fresh (spread postDefaults overrides)

/-- Embedding of `TestDataFactory.generateComment(overrides)`. -/
def generateComment (fresh : Nat) (overrides : Props) : JsVal :=
  .obj fresh (spread commentDefaults overrides)

/-- Embedding of `TestDataFactory.generateInvalidEmail()`. -/
def generateInvalidEmail : JsVal := .str "invalid-email"

end TestDataFactory

/-- The own properties of an object value. -/
def propsOf : JsVal → Props
  | .obj _ ps => ps
  | _ => []

/-! ## Reference notions the claims are stated against -/

/-- The value is `undefined`. -/
def isUndefined : JsVal → Bool
  | .undefined => true
  | _ => false

/-- What `value[key]` reads on a property list. -/
def itemOf (key : String) (ps : Props) : JsVal :=
  (lookupProp key ps).getD .undefined

namespace Joi

/-- The schema was declared with `.required()`. -/
def Schema.isRequired : Schema → Bool
  | .number required => required
  | .string required _ => required
  | .object required _ => required

/-- The declared keys of an object schema. -/
def Schema.keys : Schema → List (String × Schema)
  | .object _ keys => keys
  | _ => []

/-- The required keys of a schema that a record lacks, in declaration order. -/
def missingRequired (keys : List (String × Schema)) (ps : Props) : List String :=
  (keys.filter (fun kc => kc.2.isRequired && isUndefined (itemOf kc.1 ps))).map Prod.fst

/-- The errors of the declared keys, each validated on its own against the record. -/
def keyErrors (isEmail : String → Bool) (opts : Options) (path : List String) (ps : Props) :
    List (String × Schema) → List Detail
  | [] => []
  | kc :: rest =>
    (kc.2.check isEmail opts (path ++ [kc.1]) (itemOf kc.1 ps)).2
      ++ keyErrors isEmail opts path ps rest

mutual
/-- Validation converts nothing in the value: no field declared as a number holds a
string. -/
def convertsNothing : Schema → JsVal → Bool
  | .number _, value =>
    (match value with
     | .str _ => false
     | _ => true)
  | .string _ _, _ => true
  | .object _ keys, value =>
    (match value with
     | .obj _ ps => convertsNothingKeys keys ps
     | _ => true)
termination_by structural s => s
/-- The same, for each declared key of a record. -/
def convertsNothingKeys : List (String × Schema) → Props → Bool
  | [], _ => true
  | kc :: rest, ps => convertsNothing kc.2 (itemOf kc.1 ps) && convertsNothingKeys rest ps
termination_by structural l => l
end

end Joi

/-- The schemas `schemaValidator.js` exports. -/
def builtinSchemas : List Joi.Schema :=
  [schemas.user, schemas.post, schemas.comment, schemas.errorResponse]


/-- Direct nested access `m[k₁][k₂]…` through mappings only: every value a key is
read from must be an object owning that key. -/
def nestedAccess : JsVal → List String → Option JsVal
  | v, [] => some v
  | .obj _ ps, k :: ks =>
    match lookupProp k ps with
    | some x => nestedAccess x ks
    | none => none
  | _, _ :: _ => none

/-- Walking a path by own properties: keys of objects, and also indices and `length`
of arrays and of strings; a falsy value cannot be descended into. -/
def ownWalk : JsVal → List String → Option JsVal
  | v, [] => some v
  | v, k :: ks =>
    if !v.falsy && v.ownProperty k then ownWalk (v.getProp k) ks else none

/-- An object whose own property named `hasOwnProperty` hides the inherited method. -/
def hidesMethod : JsVal → Bool
  | .obj _ ps => hasKey "hasOwnProperty" ps
  | _ => false

/-- No object met while walking the path owns a property named `hasOwnProperty`. -/
def unshadowed : JsVal → List String → Bool
  | _, [] => true
  | v, k :: ks =>
    !hidesMethod v &&
    (if !v.falsy && v.ownProperty k then unshadowed (v.getProp k) ks else true)

end ApiHarness

namespace ApiHarness

/-- A number of the language, a binary64 value: not-a-number, an infinity, or a finite
value given exactly as a rational.  Negative zero is not told apart from zero. -/
inductive Float64 where
  | nan
  | inf (negative : Bool)
  | fin (value : ℚ)
  deriving DecidableEq

namespace Float64

/-- Rounding of a rational to the nearest integer, ties to the even one. -/
def roundHalfEven (y : ℚ) : Int :=
  if y - ⌊y⌋ < 1 / 2 then ⌊y⌋
  else if 1 / 2 < y - ⌊y⌋ then ⌊y⌋ + 1
  else if ⌊y⌋ % 2 = 0 then ⌊y⌋ else ⌊y⌋ + 1

/-- The binary64 value nearest to a rational, ties to even: 53 significant bits, the
least exponent that of the subnormals, an infinity from `2^1024` on. -/
def nearest (x : ℚ) : Float64 :=
  if x = 0 then fin 0
  else if (2 : ℚ) ^ (1024 : Int)
      ≤ |(roundHalfEven (x / 2 ^ (max (Int.log 2 |x|) (-1022) - 52)) : ℚ)
          * 2 ^ (max (Int.log 2 |x|) (-1022) - 52)| then
    inf (decide (x < 0))
  else fin ((roundHalfEven (x / 2 ^ (max (Int.log 2 |x|) (-1022) - 52)) : ℚ)
          * 2 ^ (max (Int.log 2 |x|) (-1022) - 52))

/-- The sum of two numbers. -/
def add : Float64 → Float64 → Float64
  | fin x, fin y => nearest (x + y)
  | inf a, inf b => if a = b then inf a else nan
  | inf a, fin _ => inf a
  | fin _, inf b => inf b
  | _, _ => nan

/-- The negation of a number. -/
def neg : Float64 → Float64
  | fin x => fin (-x)
  | inf a => inf (!a)
  | nan => nan

/-- The difference of two numbers. -/
def sub (a b : Float64) : Float64 :=
  add a (neg b)

/-- The product of two numbers. -/
def mul : Float64 → Float64 → Float64
  | fin x, fin y => nearest (x * y)
  | inf a, inf b => inf (a != b)
  | inf a, fin y => if y = 0 then nan else inf (a != decide (y < 0))
  | fin x, inf b => if x = 0 then nan else inf (decide (x < 0) != b)
  | _, _ => nan

/-- The call `Math.floor(x)`. -/
def floor : Float64 → Float64
  | fin x => fin ⌊x⌋
  | other => other

/-- The comparison `a < b` of two numbers: false when either is not a number. -/
def lt : Float64 → Float64 → Bool
  | fin x, fin y => decide (x < y)
  | inf a, inf b => a && !b
  | inf a, fin _ => a
  | fin _, inf b => !b
  | _, _ => false

end Float64
end ApiHarness

namespace ApiHarness
open JsVal

/-! ## Headers, content type and response time -/

/-- The call `s.toLowerCase()`, letter by letter on the ASCII letters (header names
are ASCII tokens). -/
def toLowerCase (s : String) : String :=
  String.mk (s.toList.map Char.toLower)

/-- The member read `v.k`: reading a member of `undefined` or `null` throws; own
properties are read as `getProp` does (no declared member name used here is inherited
from a prototype). -/
def member (v : JsVal) (k : String) : Except Thrown JsVal :=
  match v with
  | .undefined => .error .typeError
  | .null => .error .typeError
  | w => .ok (w.getProp k)

/-- The optional read `v?.k`: `undefined` when `v` is `undefined` or `null`. -/
def optionalMember (v : JsVal) (k : String) : JsVal :=
  match v with
  | .undefined => .undefined
  | .null => .undefined
  | w => w.getProp k

/-- The operator `a || b` on two evaluated operands. -/
def orElse (a b : JsVal) : JsVal :=
  if a.falsy then b else a

/-- One list of characters begins with another. -/
def beginsWith : List Char → List Char → Bool
  | [], _ => true
  | _ :: _, [] => false
  | a :: as, b :: bs => a == b && beginsWith as bs

/-- Substring search on lists of characters. -/
def occursIn (needle : List Char) : List Char → Bool
  | [] => needle.isEmpty
  | c :: cs => beginsWith needle (c :: cs) || occursIn needle cs

/-- The method call `v.includes(needle)` with a string argument: substring search on a
string, element search on an array; on any other value there is no such method and
the call throws. -/
def includes (v : JsVal) (needle : String) : Except Thrown Bool :=
  match v with
  | .str s => .ok (occursIn needle.toList s.toList)
  | .surrogate u => .ok (needle == "" || codeUnits needle == [u])
  | .arr _ items => .ok (items.any (fun x => x.strictEq (.str needle)))
  | _ => .error .typeError

/-- White space and line terminators of the language, by code point: the characters
a numeral may be surrounded by. -/
def isStrWhiteSpace (c : Char) : Bool :=
  [9, 10, 11, 12, 13, 32, 160, 5760, 8232, 8233, 8239, 8287, 12288, 65279].contains c.toNat
    || (8192 ≤ c.toNat && c.toNat ≤ 8202)

/-- The characters of a string without the white space at its two ends. -/
def trimWhiteSpace (cs : List Char) : List Char :=
  ((cs.dropWhile isStrWhiteSpace).reverse.dropWhile isStrWhiteSpace).reverse

/-- Value of a digit in a radix up to 16, letters in either case. -/
def digitIn (radix : Nat) (c : Char) : Option Nat :=
  let d : Nat :=
    if 48 ≤ c.toNat && c.toNat ≤ 57 then c.toNat - 48
    else if 97 ≤ c.toNat && c.toNat ≤ 102 then c.toNat - 87
    else if 65 ≤ c.toNat && c.toNat ≤ 70 then c.toNat - 55
    else 16
  if d < radix then some d else none

/-- Value of a run of digits in a radix, most significant first, on top of the value
read so far; `none` when a character is not a digit of the radix. -/
def digitsIn (radix : Nat) : Nat → List Char → Option Nat
  | acc, [] => some acc
  | acc, c :: cs =>
    match digitIn radix c with
    | some d => digitsIn radix (radix * acc + d) cs
    | none => none

/-- Value of a non-empty run of digits in a radix. -/
def radixLiteral (radix : Nat) (cs : List Char) : Option Nat :=
  if cs.isEmpty then none else digitsIn radix 0 cs

/-- The exponent part of a decimal numeral: nothing, or `e` or `E`, an optional sign
and a non-empty run of decimal digits. -/
def exponentPart : List Char → Option Int
  | [] => some 0
  | c :: rest =>
    if c == 'e' || c == 'E' then
      match rest with
      | '+' :: ds => (radixLiteral 10 ds).map (fun n => (n : Int))
      | '-' :: ds => (radixLiteral 10 ds).map (fun n => -(n : Int))
      | ds => (radixLiteral 10 ds).map (fun n => (n : Int))
    else none

/-- The rational an unsigned decimal numeral denotes: digits, an optional point and
fraction digits (a digit on at least one side of the point), an optional exponent. -/
def unsignedDecimal (cs : List Char) : Option ℚ :=
  let whole := cs.takeWhile Char.isDigit
  let afterWhole := cs.dropWhile Char.isDigit
  let fraction := match afterWhole with
    | '.' :: more => more.takeWhile Char.isDigit
    | _ => []
  let afterFraction := match afterWhole with
    | '.' :: more => more.dropWhile Char.isDigit
    | other => other
  if whole.isEmpty && fraction.isEmpty then none
  else
    match digitsIn 10 0 (whole ++ fraction), exponentPart afterFraction with
    | some n, some e => some ((n : ℚ) * (10 : ℚ) ^ (e - (fraction.length : Int)))
    | _, _ => none

/-- The number a signed decimal numeral denotes, `Infinity` included. -/
def signedDecimal (negative : Bool) (cs : List Char) : Float64 :=
  if cs == "Infinity".toList then .inf negative
  else
    match unsignedDecimal cs with
    | some q => Float64.nearest (if negative then -q else q)
    | none => .nan

/-- Conversion of a string to a number: white space at the ends is dropped; the empty
string is `0`; `0x`, `0o` and `0b` introduce an unsigned numeral in that radix; any
other numeral is decimal with an optional sign, fraction and exponent; every value is
rounded to the nearest binary64 value; anything else is not a number. -/
def stringToNumber (s : String) : Float64 :=
  match trimWhiteSpace s.toList with
  | [] => .fin 0
  | '0' :: 'x' :: ds => ((radixLiteral 16 ds).map (fun n => Float64.nearest n)).getD .nan
  | '0' :: 'X' :: ds => ((radixLiteral 16 ds).map (fun n => Float64.nearest n)).getD .nan
  | '0' :: 'o' :: ds => ((radixLiteral 8 ds).map (fun n => Float64.nearest n)).getD .nan
  | '0' :: 'O' :: ds => ((radixLiteral 8 ds).map (fun n => Float64.nearest n)).getD .nan
  | '0' :: 'b' :: ds => ((radixLiteral 2 ds).map (fun n => Float64.nearest n)).getD .nan
  | '0' :: 'B' :: ds => ((radixLiteral 2 ds).map (fun n => Float64.nearest n)).getD .nan
  | '+' :: ds => signedDecimal false ds
  | '-' :: ds => signedDecimal true ds
  | ds => signedDecimal false ds

/-- Conversion of a primitive to a number.  The number `num n` is the binary64 value
the numeral `n` denotes. -/
def toNumber : JsVal → Float64
  | .undefined => .nan
  | .null => .fin 0
  | .bool b => .fin (if b then 1 else 0)
  | .num n => Float64.nearest n
  | .str s => stringToNumber s
  | _ => .nan

/-- Lexicographic order on sequences of code units. -/
def unitsLt : List Nat → List Nat → Bool
  | _, [] => false
  | [], _ :: _ => true
  | a :: as, b :: bs => a < b || (a == b && unitsLt as bs)

/-- The code units of a primitive that is a string. -/
def stringUnits : JsVal → Option (List Nat)
  | .str s => some (codeUnits s)
  | .surrogate u => some [u]
  | _ => none

/-- Conversion of an operand of a comparison to a primitive: arrays and objects
through their string conversion, which may throw. -/
def toPrimitive (v : JsVal) : Except Thrown JsVal :=
  match v with
  | .arr r items =>
    (match (JsVal.arr r items).toStr with
     | some s => .ok (.str s)
     | none => .error .typeError)
  | .obj r ps =>
    (match (JsVal.obj r ps).toStr with
     | some s => .ok (.str s)
     | none => .error .typeError)
  | w => .ok w

/-- The comparison `a > b`: both operands are made primitive, the left one first; two
strings compare by code units, anything else as numbers, and nothing is greater or
less than a value that is not a number. -/
def greaterThan (a b : JsVal) : Except Thrown Bool :=
  match toPrimitive a with
  | .error e => .error e
  | .ok pa =>
    match toPrimitive b with
    | .error e => .error e
    | .ok pb =>
      match stringUnits pa, stringUnits pb with
      | some ua, some ub => .ok (unitsLt ub ua)
      | _, _ => .ok (Float64.lt (toNumber pb) (toNumber pa))

namespace ApiAssertions

/-- The constant `responseTime` of `assertResponseTime`, the value of
`response.headers['x-response-time'] || response.config.metadata?.responseTime || 0`.
The header is read first; only when it is falsy is `response.config.metadata` read,
which throws when `response.config` is `undefined` or `null`; only when the time found
there is falsy too is the value `0`. -/
def assertResponseTime.responseTime (response : Response) : Except Thrown JsVal :=
  let header := itemOf "x-response-time" response.headers
  if !header.falsy then .ok header
  else match member response.config "metadata" with
    | .error e => .error e
    | .ok metadata => .ok (orElse (optionalMember metadata "responseTime") (.num 0))

/-- Embedding of `ApiAssertions.assertResponseTime(response, maxTime)`. -/
def assertResponseTime (response : Response) (maxTime : JsVal) : Except Thrown Unit :=
  match assertResponseTime.responseTime response with
  | .error e => .error e
  | .ok responseTime =>
    match greaterThan responseTime maxTime with
    | .error e => .error e
    | .ok true =>
      (match template [some "Response time ", responseTime.toStr, some "ms exceeded maximum ",
                       maxTime.toStr, some "ms"] with
       | .ok m => .error (.error m)
       | .error e => .error e)
    | .ok false => .ok ()

/-- Embedding of `ApiAssertions.assertHeader(response, headerName, expectedValue)`. -/
def assertHeader (response : Response) (headerName : String) (expectedValue : JsVal) :
    Except Thrown Unit :=
  let actualValue := itemOf (toLowerCase headerName) response.headers
  if !(actualValue.strictEq expectedValue) then
    match template [some "Expected header ", some headerName, some " to be ",
                    expectedValue.toStr, some ", but got ", actualValue.toStr] with
    | .ok m => .error (.error m)
    | .error e => .error e
  else .ok ()

/-- Embedding of `ApiAssertions.assertHeaderExists(response, headerName)`; the headers
object takes the reference tag `0`. -/
def assertHeaderExists (response : Response) (headerName : String) : Except Thrown Unit :=
  match (JsVal.obj 0 response.headers).hasOwnProperty (toLowerCase headerName) with
  | .error e => .error e
  | .ok headerExists =>
    if !headerExists then
      .error (.error ("Expected header " ++ headerName ++ " to exist"))
    else .ok ()

/-- Embedding of `ApiAssertions.assertJsonResponse(response)`. -/
def assertJsonResponse (response : Response) : Except Thrown Unit :=
  let contentType := itemOf "content-type" response.headers
  let failed : Except Thrown Bool :=
    if contentType.falsy then .ok true
    else match includes contentType "application/json" with
      | .error e => .error e
      | .ok found => .ok (!found)
  match failed with
  | .error e => .error e
  | .ok true =>
    (match template [some "Expected JSON response, but got content-type: ",
                     contentType.toStr] with
     | .ok m => .error (.error m)
     | .error e => .error e)
  | .ok false => .ok ()

end ApiAssertions

namespace Matchers

/-- Embedding of `toBeValidJson(response)` of `tests/setup.js`; `pass` is the value of
`contentType && contentType.includes('application/json')`. -/
def toBeValidJson (response : Response) : Except Thrown MatcherResult :=
  let contentType := itemOf "content-type" response.headers
  let pass : Except Thrown JsVal :=
    if contentType.falsy then .ok contentType
    else match includes contentType "application/json" with
      | .error e => .error e
      | .ok found => .ok (.bool found)
  match pass with
  | .error e => .error e
  | .ok p =>
    .ok ⟨p, if !p.falsy then .ok "Expected response not to be JSON"
            else template [some "Expected JSON response, but got content-type: ",
                           contentType.toStr]⟩

end Matchers

/-- The test runner takes a matcher result as passing when `pass` is truthy. -/
def MatcherResult.passing (r : MatcherResult) : Bool :=
  !r.pass.falsy

namespace TestDataFactory

/-- Embedding of `TestDataFactory.generateRandomNumber(min, max)`, the value of
`Math.floor(Math.random() * (max - min + 1)) + min` in binary64 arithmetic, each
operation rounding its exact result; the value of `Math.random()` is the argument
`random`. -/
def generateRandomNumber (random min max : Float64) : Float64 :=
  Float64.add (Float64.floor (Float64.mul random (Float64.add (Float64.sub max min) (.fin 1))))
    min

/-- Embedding of `TestDataFactory.generateRandomString(length)`, with the text of
`Math.random().toString(36)` as the argument `numeral`: the draw `0` prints as `0`,
any other draw as `0.` followed by the base-36 digits that identify it.
`substring(2, length + 2)` keeps the characters from index 2 up to `length + 2`. -/
def generateRandomString (numeral : String) (length : Nat) : String :=
  String.mk ((numeral.toList.drop 2).take length)

end TestDataFactory

/-! ## Reference notions for the later claims -/

/-- Two names differ only in letter case: same length, and at each position the two
characters have the same lowercase form. -/
def differOnlyInCase (a b : String) : Prop :=
  List.Forall₂ (fun x y => x.toLower = y.toLower) a.toList b.toList

/-- The first string occurs in the second as a substring. -/
def containsSubstring (needle s : String) : Prop :=
  ∃ before after, s.toList = before ++ needle.toList ++ after

/-- The content-type header is present, is a string, and contains `application/json`. -/
def jsonContentType (response : Response) : Prop :=
  ∃ s, lookupProp "content-type" response.headers = some (.str s)
    ∧ containsSubstring "application/json" s

/-- An outcome is a normal return. -/
def passes {α : Type} (r : Except Thrown α) : Bool :=
  match r with
  | .ok _ => true
  | .error _ => false

/-- A value that owns no property the traversal could descend into: `undefined`,
`null`, a boolean, a number or the empty string. -/
def ownsNothing : JsVal → Bool
  | .undefined => true
  | .null => true
  | .bool _ => true
  | .num _ => true
  | .str s => s == ""
  | _ => false

/-- The character is a digit or a letter of the base-36 numerals. -/
def alphanumeric (c : Char) : Bool :=
  c.isDigit || c.isLower

end ApiHarness

/-! ## The data as a store shared with the caller

The assertions above take their data as a value.  To say what a call does to the data
it is given, the same data is laid out here as the running program holds it: arrays
and objects live in a store, a value refers to them by address, and a call is a
computation that is handed a store and leaves one. -/

namespace ApiHarness
namespace Store

/-- A value as a variable holds it: a primitive, or a reference to an array or object
in the store. -/
inductive Value where
  | undefined
  | null
  | bool (b : Bool)
  | num (n : Int)
  | str (s : String)
  | surrogate (unit : Nat)
  | ref (address : Nat)
  deriving DecidableEq

/-- What the store holds at an address: the elements of an array or the own
properties of an object (first entry wins on lookup). -/
inductive Cell where
  | array (items : List Value)
  | object (props : List (String × Value))
  deriving DecidableEq

/-- The store: the cell at each address. -/
abbrev Heap := List Cell

namespace Value

/-- A primitive as the value it is; a reference, which is read through the store
instead, counts as `undefined` here. -/
def toJs : Value → JsVal
  | undefined => .undefined
  | null => .null
  | bool b => .bool b
  | num n => .num n
  | str s => .str s
  | surrogate u => .surrogate u
  | ref _ => .undefined

/-- The primitive a read of a string yields, as a value of the store. -/
def ofJs : JsVal → Value
  | .undefined => undefined
  | .null => null
  | .bool b => bool b
  | .num n => num n
  | .str s => str s
  | .surrogate u => surrogate u
  | .arr r _ => ref r
  | .obj r _ => ref r

/-- The values for which `!v` is `true`; a reference never is. -/
def falsy : Value → Bool
  | ref _ => false
  | w => w.toJs.falsy

/-- Strict equality `a === b`: primitives by type and value, references by address. -/
def strictEq : Value → Value → Bool
  | ref a, ref b => a == b
  | ref _, _ => false
  | _, ref _ => false
  | v, w => v.toJs.strictEq w.toJs

end Value

/-- Own-key test on the properties of an object in the store. -/
def keyIn (k : String) (ps : List (String × Value)) : Bool :=
  ps.any (fun p => p.1 == k)

/-- Own property lookup on the properties of an object in the store. -/
def valueAt (k : String) : List (String × Value) → Option Value
  | [] => none
  | (name, v) :: rest => if name == k then some v else valueAt k rest

/-- The assignment `o[key] = value` on the properties of an object: an existing
property keeps its place, a new one goes last. -/
def setValue (key : String) (value : Value) : List (String × Value) → List (String × Value)
  | [] => [(key, value)]
  | (k, w) :: rest =>
    if k == key then (k, value) :: rest else (k, w) :: setValue key value rest

/-- The method call `v.hasOwnProperty(k)` against a store.  A reference is looked up:
an object whose own property named `hasOwnProperty` hides the inherited method holds a
value that is not callable, so the call throws; an array owns `length` and its
indices.  A primitive is treated as `JsVal.hasOwnProperty` treats it.  A reference to
no cell is held by no variable; the read through it throws. -/
def hasOwnProperty (h : Heap) (v : Value) (k : String) : Except Thrown Bool :=
  match v with
  | .ref a =>
    (match h.get? a with
     | some (.object ps) =>
       if keyIn "hasOwnProperty" ps then .error .typeError else .ok (keyIn k ps)
     | some (.array items) => .ok (k == "length" || (JsVal.indexOfName k items.length).isSome)
     | none => .error .typeError)
  | w => w.toJs.hasOwnProperty k

/-- The read `v[k]` of an own property against a store; anything else reads as
`undefined`. -/
def getProp (h : Heap) (v : Value) (k : String) : Value :=
  match v with
  | .ref a =>
    (match h.get? a with
     | some (.object ps) => (valueAt k ps).getD .undefined
     | some (.array items) =>
       if k == "length" then .num items.length
       else match JsVal.indexOfName k items.length with
         | some i => items.getD i .undefined
         | none => .undefined
     | none => .undefined)
  | w => Value.ofJs (w.toJs.getProp k)

/-- The call `Array.prototype.join` on elements already converted: `none` when a
conversion threw. -/
def joinConverted : List (Option String) → Option String
  | [] => some ""
  | x :: rest =>
    match x, joinConverted rest with
    | some a, some b => some (if rest.isEmpty then a else a ++ "," ++ b)
    | _, _ => none

/-- String conversion of a template literal against a store, as `JsVal.toStr`: an
object converts to `[object Object]` unless an own property named `toString` hides the
inherited method, a `TypeError` (here `none`); an array is the join of its elements,
`null` and `undefined` contributing the empty string.  `seen` holds the arrays whose
join is under way: an array met again inside its own join contributes the empty
string, as the engines have it.  Each nested join adds an address to `seen`, so a fuel
of one more than the number of cells is never used up. -/
def toStrWith (h : Heap) (fuel : Nat) (seen : List Nat) (v : Value) : Option String :=
  match v with
  | .ref a =>
    (match fuel with
     | 0 => none
     | fuel + 1 =>
       match h.get? a with
       | some (.object ps) => if keyIn "toString" ps then none else some "[object Object]"
       | some (.array items) =>
         if seen.contains a then some ""
         else joinConverted (items.map (fun x =>
           match x with
           | .undefined => some ""
           | .null => some ""
           | w => toStrWith h fuel (a :: seen) w))
       | none => none)
  | w => w.toJs.toStr

/-- String conversion of a template literal against a store. -/
def toStr (h : Heap) (v : Value) : Option String :=
  toStrWith h (h.length + 1) [] v

/-- A computation over the store: it is handed a store and leaves an outcome, a value
or what it threw, and the store as it is afterwards. -/
abbrev Exec (α : Type) := Heap → Except Thrown α × Heap

namespace Exec

/-- The computation that yields a value and does nothing. -/
def pure {α : Type} (a : α) : Exec α :=
  fun h => (.ok a, h)

/-- The statement `throw`. -/
def throw {α : Type} (t : Thrown) : Exec α :=
  fun h => (.error t, h)

/-- Sequencing: the second computation runs on the store the first one left; what the
first one threw passes through, with the store as it was at the throw. -/
def bind {α β : Type} (m : Exec α) (f : α → Exec β) : Exec β :=
  fun h =>
    match m h with
    | (.ok a, h1) => f a h1
    | (.error t, h1) => (.error t, h1)

/-- An expression that reads the store and may throw. -/
def read {α : Type} (f : Heap → Except Thrown α) : Exec α :=
  fun h => (f h, h)

/-- The assignment `o[key] = value`, `o` being the object at `address` (with no object
there nothing is assigned).  No statement of the assertions is an assignment to a
member; the definition says what a change of the data is. -/
def assign (address : Nat) (key : String) (value : Value) : Exec Unit :=
  fun h =>
    match h.get? address with
    | some (.object ps) => (.ok (), h.set address (.object (setValue key value ps)))
    | _ => (.ok (), h)

/-- The computation leaves every store as it found it, whatever its outcome. -/
def Preserves {α : Type} (m : Exec α) : Prop :=
  ∀ h, (m h).2 = h

end Exec

/-- The loop of `assertPropertyValue` over the segments still to visit, on the store:
`!current` looks at the variable alone, `current.hasOwnProperty(prop)` and
`current[prop]` read the store. -/
def assertPropertyValue.loop (propertyPath : String) : List String → Value → Exec Value
  | [], current => Exec.pure current
  | prop :: rest, current =>
    Exec.bind
      (if current.falsy then Exec.pure true
       else Exec.bind (Exec.read (fun h => hasOwnProperty h current prop))
         (fun owns => Exec.pure (!owns)))
      (fun absent =>
        if absent then
          Exec.throw (.error ("Property " ++ propertyPath ++ " does not exist in response"))
        else
          Exec.bind (Exec.read (fun h => .ok (getProp h current prop)))
            (fun next => assertPropertyValue.loop propertyPath rest next))

/-- Embedding of `ApiAssertions.assertPropertyValue(data, propertyPath, expectedValue)`
as a computation over the store, statement by statement: the loop, then the comparison
`current !== expectedValue`, then the message, whose two conversions read the store. -/
def assertPropertyValue (data : Value) (propertyPath : String) (expectedValue : Value) :
    Exec Unit :=
  Exec.bind (assertPropertyValue.loop propertyPath (splitPath propertyPath) data)
    (fun current =>
      if !(current.strictEq expectedValue) then
        Exec.bind
          (Exec.read (fun h =>
            template [some "Expected ", some propertyPath, some " to be ",
                      toStr h expectedValue, some ", but got ", toStr h current]))
          (fun message => Exec.throw (.error message))
      else Exec.pure ())

end Store
end ApiHarness

namespace ApiHarness
namespace Store

mutual
/-- A value of the store stands for a tree: a primitive for itself, a reference for the
array or object whose tag is the address and whose elements or properties, read from
the store in order, stand for the tree's. -/
def represents (h : Heap) : JsVal → Value → Bool
  | .undefined, v => v == .undefined
  | .null, v => v == .null
  | .bool b, v => v == .bool b
  | .num n, v => v == .num n
  | .str s, v => v == .str s
  | .surrogate u, v => v == .surrogate u
  | .arr r trees, v =>
    match v with
    | .ref a =>
      a == r && (match h.get? a with
        | some (.array items) => representsAll h trees items
        | _ => false)
    | _ => false
  | .obj r ps, v =>
    match v with
    | .ref a =>
      a == r && (match h.get? a with
        | some (.object props) => representsProps h ps props
        | _ => false)
    | _ => false
termination_by structural t => t
/-- The elements of an array in the store stand for the trees, one by one. -/
def representsAll (h : Heap) : List JsVal → List Value → Bool
  | [], [] => true
  | t :: ts, v :: vs => represents h t v && representsAll h ts vs
  | _, _ => false
termination_by structural ts => ts
/-- The properties of an object in the store stand for those of the tree, name by
name. -/
def representsProps (h : Heap) : List (String × JsVal) → List (String × Value) → Bool
  | [], [] => true
  | (k, t) :: ps, (name, v) :: qs => k == name && represents h t v && representsProps h ps qs
  | _, _ => false
termination_by structural ps => ps
end

/-- Every reference held in the cell is to an address below `n`. -/
def refsBelow (n : Nat) : Cell → Bool
  | .array items => items.all (fun v => match v with
      | .ref b => b < n
      | _ => true)
  | .object props => props.all (fun p => match p.2 with
      | .ref b => b < n
      | _ => true)

/-- The cells from address `n` on refer only to addresses below their own. -/
def orderedFrom : Nat → Heap → Bool
  | _, [] => true
  | n, c :: cs => refsBelow n c && orderedFrom (n + 1) cs

/-- The store is laid out as building the data lays it out: what an array or object
holds is there before it, so a cell refers only to addresses below its own. -/
def ordered (h : Heap) : Bool :=
  orderedFrom 0 h

end Store
end ApiHarness

namespace ApiHarness
namespace Float64

theorem roundHalfEven_intCast (z : Int) : roundHalfEven (z : ℚ) = z := by
  simp [roundHalfEven]

theorem floor_le_roundHalfEven (y : ℚ) : ⌊y⌋ ≤ roundHalfEven y := by
  unfold roundHalfEven
  split_ifs <;> omega

theorem roundHalfEven_le_of_lt (y : ℚ) (M : Int) (h : y < M - 1 / 2) :
    roundHalfEven y ≤ M - 1 := by
  have hf : ⌊y⌋ ≤ M - 1 := by
    have : ⌊y⌋ < M := Int.floor_lt.2 (by linarith)
    omega
  have hne : ⌊y⌋ = M - 1 → y - ⌊y⌋ < 1 / 2 := by
    intro he
    rw [he]
    push_cast
    linarith
  unfold roundHalfEven
  split_ifs with h1 h2 h3
  · exact hf
  · by_contra hc
    have he : ⌊y⌋ = M - 1 := by omega
    exact h1 (hne he)
  · exact hf
  · by_contra hc
    have he : ⌊y⌋ = M - 1 := by omega
    exact h1 (hne he)

theorem nearest_of_pos (x : ℚ) (hx : 0 < x)
    (hlt : (roundHalfEven (x / 2 ^ (max (Int.log 2 x) (-1022) - 52)) : ℚ)
      * 2 ^ (max (Int.log 2 x) (-1022) - 52) < 2 ^ (1024 : Int))
    (h0 : 0 ≤ (roundHalfEven (x / 2 ^ (max (Int.log 2 x) (-1022) - 52)) : ℚ)
      * 2 ^ (max (Int.log 2 x) (-1022) - 52)) :
    nearest x = fin ((roundHalfEven (x / 2 ^ (max (Int.log 2 x) (-1022) - 52)) : ℚ)
      * 2 ^ (max (Int.log 2 x) (-1022) - 52)) := by
  unfold nearest
  rw [if_neg hx.ne', abs_of_pos hx, abs_of_nonneg h0, if_neg (not_le.2 hlt)]

/-- A positive rational between an integer `K` and `N * (1 - 2^-53)`, with
`N ≤ 2^53`, rounds to a finite value from `K` up and below `N`. -/
theorem nearest_bounds (x : ℚ) (K N : Int) (hx : 0 < x) (hKx : (K : ℚ) ≤ x)
    (hxN : x ≤ N * (1 - 1 / 2 ^ 53)) (hN : N ≤ 2 ^ 53) :
    ∃ v, nearest x = fin v ∧ (K : ℚ) ≤ v ∧ v < N := by
  have hNpos : (0 : ℚ) < N := by
    by_contra h
    push_neg at h
    have : (N : ℚ) * (1 - 1 / 2 ^ 53) ≤ 0 := mul_nonpos_of_nonpos_of_nonneg h (by norm_num)
    linarith
  have hN1 : (1 : ℚ) ≤ N := by
    have : (0 : Int) < N := by exact_mod_cast hNpos
    exact_mod_cast (by omega : (1 : Int) ≤ N)
  have hxltN : x < N := by
    have : (N : ℚ) * (1 - 1 / 2 ^ 53) < N := by nlinarith
    linarith
  have hNq : (N : ℚ) ≤ 2 ^ 53 := by exact_mod_cast hN
  have he1 : (2 : ℚ) ^ Int.log 2 x ≤ x := by
    have := Int.zpow_log_le_self (b := 2) (by norm_num) hx
    simpa using this
  have he53 : Int.log 2 x < 53 := by
    rw [← Int.lt_zpow_iff_log_lt (by norm_num) hx]
    have : x < (2 : ℚ) ^ (53 : Int) := by
      have h53 : (2 : ℚ) ^ (53 : Int) = 2 ^ (53 : ℕ) := by norm_num
      rw [h53]
      exact lt_of_lt_of_le hxltN hNq
    simpa using this
  obtain ⟨n, hn⟩ : ∃ n : ℕ, max (Int.log 2 x) (-1022) - 52 = -(n : Int) :=
    ⟨(52 - max (Int.log 2 x) (-1022)).toNat, by omega⟩
  have hs : (2 : ℚ) ^ (max (Int.log 2 x) (-1022) - 52) = ((2 : ℚ) ^ n)⁻¹ := by
    rw [hn, zpow_neg, zpow_natCast]
  have hp : (0 : ℚ) < 2 ^ n := by positivity
  have hdiv : x / ((2 : ℚ) ^ n)⁻¹ = x * 2 ^ n := by
    rw [div_inv_eq_mul]
  have hM : (2 : ℚ) ^ 52 < N * 2 ^ n := by
    rcases le_or_lt (-1022 : Int) (Int.log 2 x) with h | h
    · have hn' : (n : Int) = 52 - Int.log 2 x := by omega
      have hpe : (2 : ℚ) ^ n = 2 ^ (52 - Int.log 2 x) := by
        rw [← zpow_natCast, hn']
      have h2 : (2 : ℚ) ^ Int.log 2 x * 2 ^ (52 - Int.log 2 x) = 2 ^ 52 := by
        rw [← zpow_add₀ (by norm_num)]
        norm_num
      calc (2 : ℚ) ^ 52 = 2 ^ Int.log 2 x * 2 ^ n := by rw [hpe, h2]
        _ ≤ x * 2 ^ n := mul_le_mul_of_nonneg_right he1 hp.le
        _ < N * 2 ^ n := mul_lt_mul_of_pos_right hxltN hp
    · have hn' : n = 1074 := by omega
      subst hn'
      have h1 : (2 : ℚ) ^ 52 < 1 * 2 ^ 1074 := by
        rw [one_mul]
        exact pow_lt_pow_right₀ (by norm_num) (by norm_num)
      have h2 : (1 : ℚ) * 2 ^ 1074 ≤ (N : ℚ) * 2 ^ 1074 :=
        mul_le_mul_of_nonneg_right hN1 (by positivity)
      exact lt_of_lt_of_le h1 h2
  have hup : x * 2 ^ n < ((N * 2 ^ n : Int) : ℚ) - 1 / 2 := by
    push_cast
    have : x * 2 ^ n ≤ N * (1 - 1 / 2 ^ 53) * 2 ^ n := mul_le_mul_of_nonneg_right hxN hp.le
    nlinarith
  have hrup := roundHalfEven_le_of_lt _ _ hup
  have hrlo : K * 2 ^ n ≤ roundHalfEven (x * 2 ^ n) := by
    refine le_trans (Int.le_floor.2 ?_) (floor_le_roundHalfEven _)
    push_cast
    exact mul_le_mul_of_nonneg_right hKx hp.le
  have hrlo' : (K : ℚ) * 2 ^ n ≤ (roundHalfEven (x * 2 ^ n) : ℚ) := by exact_mod_cast hrlo
  have hrup' : (roundHalfEven (x * 2 ^ n) : ℚ) ≤ N * 2 ^ n - 1 := by exact_mod_cast hrup
  have hvlo : (K : ℚ) ≤ (roundHalfEven (x * 2 ^ n) : ℚ) * ((2 : ℚ) ^ n)⁻¹ := by
    rw [le_mul_inv_iff₀ hp]
    exact hrlo'
  have hvup : (roundHalfEven (x * 2 ^ n) : ℚ) * ((2 : ℚ) ^ n)⁻¹ < N := by
    rw [mul_inv_lt_iff₀ hp]
    linarith
  have hK0 : (0 : ℚ) ≤ (roundHalfEven (x * 2 ^ n) : ℚ) * ((2 : ℚ) ^ n)⁻¹ := by
    apply mul_nonneg _ (inv_nonneg.2 hp.le)
    have : (0 : Int) ≤ roundHalfEven (x * 2 ^ n) :=
      le_trans (Int.floor_nonneg.2 (mul_nonneg hx.le hp.le)) (floor_le_roundHalfEven _)
    exact_mod_cast this
  refine ⟨(roundHalfEven (x * 2 ^ n) : ℚ) * ((2 : ℚ) ^ n)⁻¹, ?_, hvlo, hvup⟩
  have := nearest_of_pos x hx (by
      rw [hs, hdiv]
      calc (roundHalfEven (x * 2 ^ n) : ℚ) * ((2 : ℚ) ^ n)⁻¹ < N := hvup
        _ ≤ 2 ^ 53 := hNq
        _ < 2 ^ (1024 : Int) := by norm_num)
    (by rw [hs, hdiv]; exact hK0)
  rw [hs, hdiv] at this
  exact this

/-- An integer of magnitude below `2^53` is a binary64 value. -/
theorem nearest_intCast (z : Int) (h : |z| < 2 ^ 53) : nearest (z : ℚ) = fin z := by
  by_cases hz : z = 0
  · subst hz
    simp [nearest]
  have hzq : (z : ℚ) ≠ 0 := by exact_mod_cast hz
  have ha : (0 : ℚ) < |(z : ℚ)| := abs_pos.2 hzq
  have ha1 : (1 : ℚ) ≤ |(z : ℚ)| := by
    have : (1 : Int) ≤ |z| := Int.one_le_abs hz
    exact_mod_cast this
  have ha53 : |(z : ℚ)| < 2 ^ 53 := by exact_mod_cast h
  have he0 : 0 ≤ Int.log 2 |(z : ℚ)| := by
    rw [← Int.zpow_le_iff_le_log (by norm_num) ha]
    simpa using ha1
  have he53 : Int.log 2 |(z : ℚ)| < 53 := by
    rw [← Int.lt_zpow_iff_log_lt (by norm_num) ha]
    have h53 : (2 : ℚ) ^ (53 : Int) = 2 ^ (53 : ℕ) := by norm_num
    simpa [h53] using ha53
  obtain ⟨n, hn⟩ : ∃ n : ℕ, max (Int.log 2 |(z : ℚ)|) (-1022) - 52 = -(n : Int) :=
    ⟨(52 - max (Int.log 2 |(z : ℚ)|) (-1022)).toNat, by omega⟩
  have hs : (2 : ℚ) ^ (max (Int.log 2 |(z : ℚ)|) (-1022) - 52) = ((2 : ℚ) ^ n)⁻¹ := by
    rw [hn, zpow_neg, zpow_natCast]
  have hp : (0 : ℚ) < 2 ^ n := by positivity
  have hy : (z : ℚ) / ((2 : ℚ) ^ n)⁻¹ = ((z * 2 ^ n : Int) : ℚ) := by
    rw [div_inv_eq_mul]
    push_cast
    rfl
  have hv : ((z * 2 ^ n : Int) : ℚ) * ((2 : ℚ) ^ n)⁻¹ = z := by
    push_cast
    field_simp
  unfold nearest
  rw [if_neg hzq, hs, hy, roundHalfEven_intCast, hv, if_neg]
  rw [not_le]
  calc |(z : ℚ)| < 2 ^ 53 := ha53
    _ < 2 ^ (1024 : Int) := by norm_num

/-- A binary64 value in `[0, 1)` is at most `1 - 2^-53`. -/
theorem le_of_nearest_lt_one (r : ℚ) (hr : nearest r = fin r) (h0 : 0 ≤ r) (h1 : r < 1) :
    r ≤ 1 - 1 / 2 ^ 53 := by
  rcases h0.eq_or_lt with h | hpos
  · rw [← h]
    norm_num
  have hlog : Int.log 2 r < 0 := by
    rw [← Int.lt_zpow_iff_log_lt (by norm_num) hpos]
    simpa using h1
  rcases le_or_lt (Int.log 2 r) (-2) with h2 | h2
  · have hlt := Int.lt_zpow_succ_log_self (b := 2) (by norm_num) r
    have hle : (2 : ℚ) ^ (Int.log 2 r + 1) ≤ 2 ^ (-1 : Int) :=
      zpow_le_zpow_right₀ (by norm_num) (by omega)
    have : r < 2 ^ (-1 : Int) := by
      have hlt' : r < (2 : ℚ) ^ (Int.log 2 r + 1) := by simpa using hlt
      exact lt_of_lt_of_le hlt' hle
    have h12 : (2 : ℚ) ^ (-1 : Int) = 1 / 2 := by norm_num
    rw [h12] at this
    have : (1 : ℚ) / 2 ≤ 1 - 1 / 2 ^ 53 := by norm_num
    linarith
  · have he : Int.log 2 r = -1 := by omega
    have ht : max (Int.log 2 r) (-1022) - 52 = -((53 : ℕ) : Int) := by
      rw [he]
      norm_num
    have hs : (2 : ℚ) ^ (max (Int.log 2 r) (-1022) - 52) = ((2 : ℚ) ^ 53)⁻¹ := by
      rw [ht, zpow_neg, zpow_natCast]
    unfold nearest at hr
    rw [if_neg hpos.ne', abs_of_pos hpos, hs, div_inv_eq_mul] at hr
    split at hr
    · exact absurd hr (by simp)
    · have hv : (roundHalfEven (r * 2 ^ 53) : ℚ) * ((2 : ℚ) ^ 53)⁻¹ = r := by
        simpa using hr
      have hm : (roundHalfEven (r * 2 ^ 53) : ℚ) = r * 2 ^ 53 := by
        calc (roundHalfEven (r * 2 ^ 53) : ℚ)
            = (roundHalfEven (r * 2 ^ 53) : ℚ) * ((2 : ℚ) ^ 53)⁻¹ * 2 ^ 53 := by field_simp
          _ = r * 2 ^ 53 := by rw [hv]
      have hlt : (roundHalfEven (r * 2 ^ 53) : ℚ) < ((2 ^ 53 : Int) : ℚ) := by
        rw [hm]
        push_cast
        nlinarith
      have hle : roundHalfEven (r * 2 ^ 53) ≤ 2 ^ 53 - 1 := by
        have : roundHalfEven (r * 2 ^ 53) < 2 ^ 53 := by exact_mod_cast hlt
        omega
      have hle' : (roundHalfEven (r * 2 ^ 53) : ℚ) ≤ 2 ^ 53 - 1 := by exact_mod_cast hle
      rw [hm] at hle'
      have h53 : (0 : ℚ) < 2 ^ 53 := by positivity
      rw [le_sub_iff_add_le, ← le_sub_iff_add_le'] at *
      have : r ≤ (2 ^ 53 - 1) / 2 ^ 53 := by
        rw [le_div_iff₀ h53]
        linarith
      have e : ((2 : ℚ) ^ 53 - 1) / 2 ^ 53 = 1 - 1 / 2 ^ 53 := by
        field_simp
      linarith

/-- The largest binary64 value below `1`. -/
theorem nearest_pred_one : nearest (1 - 1 / 2 ^ 53) = fin (1 - 1 / 2 ^ 53) := by
  have hx : (0 : ℚ) < 1 - 1 / 2 ^ 53 := by norm_num
  have he : Int.log 2 ((1 : ℚ) - 1 / 2 ^ 53) = -1 := by
    apply le_antisymm
    · have : Int.log 2 ((1 : ℚ) - 1 / 2 ^ 53) < 0 := by
        rw [← Int.lt_zpow_iff_log_lt (by norm_num) hx]
        norm_num
      omega
    · rw [← Int.zpow_le_iff_le_log (by norm_num) hx]
      norm_num
  have ht : max (Int.log 2 ((1 : ℚ) - 1 / 2 ^ 53)) (-1022) - 52 = -((53 : ℕ) : Int) := by
    rw [he]
    norm_num
  have hs : (2 : ℚ) ^ (max (Int.log 2 ((1 : ℚ) - 1 / 2 ^ 53)) (-1022) - 52)
      = ((2 : ℚ) ^ 53)⁻¹ := by
    rw [ht, zpow_neg, zpow_natCast]
  have hy : ((1 : ℚ) - 1 / 2 ^ 53) / ((2 : ℚ) ^ 53)⁻¹ = ((2 ^ 53 - 1 : Int) : ℚ) := by
    norm_num
  have hv : ((2 ^ 53 - 1 : Int) : ℚ) * ((2 : ℚ) ^ 53)⁻¹ = 1 - 1 / 2 ^ 53 := by
    norm_num
  unfold nearest
  rw [if_neg hx.ne', abs_of_pos hx, hs, hy, roundHalfEven_intCast, hv, if_neg]
  rw [not_le, abs_of_pos hx]
  have h1 : (1 : ℚ) ≤ 2 ^ (1024 : Int) := by norm_num
  have h2 : (1 : ℚ) - 1 / 2 ^ 53 < 1 := by norm_num
  exact lt_of_lt_of_le h2 h1

theorem nearest_zero : nearest 0 = fin 0 := by
  simp [nearest]

/-- Rounding a rational that is not negative gives a number that is not negative. -/
theorem lt_nearest_zero (x : ℚ) (h : 0 ≤ x) : lt (nearest x) (fin 0) = false := by
  rcases h.eq_or_lt with h0 | hpos
  · rw [← h0, nearest_zero]
    simp [lt]
  · unfold nearest
    rw [if_neg hpos.ne']
    split
    · simp [lt, not_lt.2 hpos.le]
    · have hp : (0 : ℚ) < 2 ^ (max (Int.log 2 |x|) (-1022) - 52) := by positivity
      have hy : 0 ≤ x / 2 ^ (max (Int.log 2 |x|) (-1022) - 52) := (div_pos hpos hp).le
      have hf : 0 ≤ ⌊x / 2 ^ (max (Int.log 2 |x|) (-1022) - 52)⌋ := Int.floor_nonneg.2 hy
      have hr := floor_le_roundHalfEven (x / 2 ^ (max (Int.log 2 |x|) (-1022) - 52))
      have hr0 : (0 : ℚ) ≤ roundHalfEven (x / 2 ^ (max (Int.log 2 |x|) (-1022) - 52)) := by
        exact_mod_cast le_trans hf hr
      simp only [lt, decide_eq_false_iff_not, not_lt]
      exact mul_nonneg hr0 hp.le

/-- A positive rational with 53 significant bits within the exponent range is a
binary64 value: `e` is its binary exponent and `m` its significand as an integer. -/
theorem nearest_of_scaled (x : ℚ) (e m : Int) (hx : 0 < x) (hlo : (2 : ℚ) ^ e ≤ x)
    (hhi : x < 2 ^ (e + 1)) (he : -1022 ≤ e) (he2 : e < 1024)
    (hm : x / 2 ^ (e - 52) = m) : nearest x = fin x := by
  have hlog : Int.log 2 x = e := by
    apply le_antisymm
    · have : Int.log 2 x < e + 1 := by
        rw [← Int.lt_zpow_iff_log_lt (by norm_num) hx]
        exact_mod_cast hhi
      omega
    · rw [← Int.zpow_le_iff_le_log (by norm_num) hx]
      exact_mod_cast hlo
  have hmax : max e (-1022) = e := max_eq_left he
  have hp : (0 : ℚ) < 2 ^ (e - 52) := by positivity
  have hv : (m : ℚ) * 2 ^ (e - 52) = x := by
    rw [← hm]
    field_simp
  unfold nearest
  rw [if_neg hx.ne', abs_of_pos hx, hlog, hmax, hm, roundHalfEven_intCast, hv, if_neg]
  rw [not_le, abs_of_pos hx]
  calc x < 2 ^ (e + 1) := hhi
    _ ≤ 2 ^ (1024 : Int) := zpow_le_zpow_right₀ (by norm_num) (by omega)

/-- The sum `2^1023 + 2^1023` is beyond the largest binary64 value. -/
theorem nearest_overflow : nearest (2 ^ (1024 : Int)) = inf false := by
  have hx : (0 : ℚ) < 2 ^ (1024 : Int) := by positivity
  have hlog : Int.log 2 ((2 : ℚ) ^ (1024 : Int)) = 1024 := Int.log_zpow (by norm_num) 1024
  have hmax : max (1024 : Int) (-1022) - 52 = 972 := by norm_num
  have hy : (2 : ℚ) ^ (1024 : Int) / 2 ^ (972 : Int) = ((2 ^ 52 : Int) : ℚ) := by
    rw [← zpow_sub₀ (by norm_num)]
    norm_num
  have hv : ((2 ^ 52 : Int) : ℚ) * 2 ^ (972 : Int) = 2 ^ (1024 : Int) := by
    rw [← hy]
    field_simp
  unfold nearest
  rw [if_neg hx.ne', abs_of_pos hx, hlog, hmax, hy, roundHalfEven_intCast, hv, if_pos]
  · simp [not_lt.2 hx.le]
  · rw [abs_of_pos hx]

/-- The binary64 value nearest to a positive rational of binary exponent `e` in the
normal range, from the rounding `m` of its significand. -/
theorem nearest_of_round (x : ℚ) (e m : Int) (hx : 0 < x) (hlo : (2 : ℚ) ^ e ≤ x)
    (hhi : x < 2 ^ (e + 1)) (he : -1022 ≤ e)
    (hm : roundHalfEven (x / 2 ^ (e - 52)) = m)
    (hv : |(m : ℚ) * 2 ^ (e - 52)| < 2 ^ (1024 : Int)) :
    nearest x = fin ((m : ℚ) * 2 ^ (e - 52)) := by
  have hlog : Int.log 2 x = e := by
    apply le_antisymm
    · have : Int.log 2 x < e + 1 := by
        rw [← Int.lt_zpow_iff_log_lt (by norm_num) hx]
        exact_mod_cast hhi
      omega
    · rw [← Int.zpow_le_iff_le_log (by norm_num) hx]
      exact_mod_cast hlo
  have hmax : max e (-1022) = e := max_eq_left he
  unfold nearest
  rw [if_neg hx.ne', abs_of_pos hx, hlog, hmax, hm, if_neg (not_le.2 hv)]

theorem sub_fin (x y : ℚ) : sub (fin x) (fin y) = nearest (x + -y) := rfl

theorem add_inf_fin (a : Bool) (y : ℚ) : add (inf a) (fin y) = inf a := rfl

theorem add_nan (b : Float64) : add nan b = nan := by
  cases b <;> rfl

theorem mul_fin_inf (x : ℚ) (b : Bool) :
    mul (fin x) (inf b) = if x = 0 then nan else inf (decide (x < 0) != b) := rfl

theorem floor_inf (a : Bool) : floor (inf a) = inf a := rfl

theorem floor_nan : floor nan = nan := rfl

end Float64
end ApiHarness

namespace ApiHarness
open JsVal ApiAssertions Matchers

/-! ## Path traversal -/

theorem hasOwnProperty_of_unshadowed (v : JsVal) (k : String) (hf : v.falsy = false)
    (hs : hidesMethod v = false) :
    v.hasOwnProperty k = .ok (v.ownProperty k) := by
  cases v <;> simp_all [JsVal.falsy, JsVal.hasOwnProperty, JsVal.ownProperty, hidesMethod]

theorem unshadowed_head (v : JsVal) (k : String) (ks : List String)
    (h : unshadowed v (k :: ks) = true) :
    hidesMethod v = false := by
  simp only [unshadowed, Bool.and_eq_true] at h
  simpa using h.1

theorem unshadowed_tail (v : JsVal) (k : String) (ks : List String)
    (h : unshadowed v (k :: ks) = true) (hf : v.falsy = false) (ho : v.ownProperty k = true) :
    unshadowed (v.getProp k) ks = true := by
  simp only [unshadowed, Bool.and_eq_true] at h
  simpa [hf, ho] using h.2

theorem assertPropertyExists_loop_eq (p : String) (segs : List String) (data : JsVal)
    (h : unshadowed data segs = true) :
    assertPropertyExists.loop p segs data =
      match ownWalk data segs with
      | some v => .ok v
      | none => .error (.error ("Property " ++ p ++ " does not exist in response")) := by
  induction segs generalizing data with
  | nil => simp [assertPropertyExists.loop, ownWalk]
  | cons k ks ih =>
    by_cases hf : data.falsy = true
    · simp [assertPropertyExists.loop, ownWalk, hf]
    · have hf' : data.falsy = false := by simpa using hf
      have hc := hasOwnProperty_of_unshadowed data k hf' (unshadowed_head data k ks h)
      by_cases ho : data.ownProperty k = true
      · have := ih (data.getProp k) (unshadowed_tail data k ks h hf' ho)
        simp [assertPropertyExists.loop, ownWalk, hf', hc, ho, this]
      · have ho' : data.ownProperty k = false := by simpa using ho
        simp [assertPropertyExists.loop, ownWalk, hf', hc, ho']

theorem assertPropertyValue_loop_eq (p : String) (segs : List String) (data : JsVal)
    (h : unshadowed data segs = true) :
    assertPropertyValue.loop p segs data =
      match ownWalk data segs with
      | some v => .ok v
      | none => .error (.error ("Property " ++ p ++ " does not exist in response")) := by
  induction segs generalizing data with
  | nil => simp [assertPropertyValue.loop, ownWalk]
  | cons k ks ih =>
    by_cases hf : data.falsy = true
    · simp [assertPropertyValue.loop, ownWalk, hf]
    · have hf' : data.falsy = false := by simpa using hf
      have hc := hasOwnProperty_of_unshadowed data k hf' (unshadowed_head data k ks h)
      by_cases ho : data.ownProperty k = true
      · have := ih (data.getProp k) (unshadowed_tail data k ks h hf' ho)
        simp [assertPropertyValue.loop, ownWalk, hf', hc, ho, this]
      · have ho' : data.ownProperty k = false := by simpa using ho
        simp [assertPropertyValue.loop, ownWalk, hf', hc, ho']

theorem toHaveProperty_loop_eq (segs : List String) (data : JsVal)
    (h : unshadowed data segs = true) :
    toHaveProperty.loop segs data = .ok (ownWalk data segs).isSome := by
  induction segs generalizing data with
  | nil => simp [toHaveProperty.loop, ownWalk]
  | cons k ks ih =>
    by_cases hf : data.falsy = true
    · simp [toHaveProperty.loop, ownWalk, hf]
    · have hf' : data.falsy = false := by simpa using hf
      have hc := hasOwnProperty_of_unshadowed data k hf' (unshadowed_head data k ks h)
      by_cases ho : data.ownProperty k = true
      · have := ih (data.getProp k) (unshadowed_tail data k ks h hf' ho)
        simp [toHaveProperty.loop, ownWalk, hf', hc, ho, this]
      · have ho' : data.ownProperty k = false := by simpa using ho
        simp [toHaveProperty.loop, ownWalk, hf', hc, ho']

theorem hasKey_of_lookupProp (k : String) (ps : Props) (x : JsVal)
    (h : lookupProp k ps = some x) : hasKey k ps = true := by
  induction ps with
  | nil => simp [lookupProp] at h
  | cons q qs ih =>
    obtain ⟨k', v⟩ := q
    by_cases hk : (k' == k) = true
    · simp [hasKey, hk]
    · have hk' : (k' == k) = false := by simpa using hk
      simp only [lookupProp, hk'] at h
      have := ih h
      simp only [hasKey] at this
      simp [hasKey, this]

/-- On mappings the own-property walk is direct nested access. -/
theorem ownWalk_of_nestedAccess (segs : List String) (m v : JsVal)
    (h : nestedAccess m segs = some v) : ownWalk m segs = some v := by
  induction segs generalizing m with
  | nil => simpa [nestedAccess, ownWalk] using h
  | cons k ks ih =>
    cases m with
    | obj r ps =>
      cases hl : lookupProp k ps with
      | none => simp [nestedAccess, hl] at h
      | some x =>
        simp only [nestedAccess, hl] at h
        have hk := hasKey_of_lookupProp k ps x hl
        simp [ownWalk, JsVal.falsy, JsVal.ownProperty, hk, JsVal.getProp, hl, ih x h]
    | _ => simp [nestedAccess] at h

end ApiHarness

namespace ApiHarness
open JsVal ApiAssertions Matchers

/-- Where no traversed object hides `hasOwnProperty`, a path that resolves by direct
nested access through mappings passes `assertPropertyExists`, with that value as the
final `current`. -/
theorem assertPropertyExists_of_nestedAccess (m v : JsVal) (p : String)
    (hn : nestedAccess m (splitPath p) = some v) (hs : unshadowed m (splitPath p) = true) :
    assertPropertyExists.loop p (splitPath p) m = .ok v ∧ assertPropertyExists m p = .ok () := by
  have hw := ownWalk_of_nestedAccess _ _ _ hn
  have hl := assertPropertyExists_loop_eq p _ m hs
  rw [hw] at hl
  exact ⟨hl, by simp [assertPropertyExists, hl]⟩

theorem template_two (a b : String) : template [some a, some b] = .ok (a ++ b) := by
  simp [template]

theorem template_four (a b c d : String) :
    template [some a, some b, some c, some d] = .ok (a ++ b ++ c ++ d) := by
  simp [template, String.append_assoc]

theorem template_six (a b c d e f : String) :
    template [some a, some b, some c, some d, some e, some f]
      = .ok (a ++ b ++ c ++ d ++ e ++ f) := by
  simp [template, String.append_assoc]

/-- C1 (the code at the failing input): in `{hasOwnProperty: true, id: 7}` the
segment `id` is a key present in the mapping and direct access gives `7`, yet
`assertPropertyExists` and the `toHaveProperty` matcher both end in a `TypeError`,
because `current.hasOwnProperty` is the own property `true`, not the method; for the
missing key `x` the `TypeError` comes in place of the path-absent message. -/
theorem assertPropertyExists_hidden_method :
    nestedAccess (.obj 0 [("hasOwnProperty", .bool true), ("id", .num 7)]) (splitPath "id")
        = some (.num 7) ∧
      assertPropertyExists (.obj 0 [("hasOwnProperty", .bool true), ("id", .num 7)]) "id"
        = .error .typeError ∧
      toHaveProperty (.obj 0 [("hasOwnProperty", .bool true), ("id", .num 7)]) "id"
        = .error .typeError ∧
      nestedAccess (.obj 0 [("hasOwnProperty", .bool true), ("id", .num 7)]) (splitPath "x")
        = none ∧
      assertPropertyExists (.obj 0 [("hasOwnProperty", .bool true), ("id", .num 7)]) "x"
        = .error .typeError :=
  ⟨rfl, rfl, rfl, rfl, rfl⟩

/-- C2 as stated fails: on `{name: "abc"}` the path `name.length` does not resolve
through keys of mappings (`"abc"` is not a mapping), yet
`assertPropertyValue(data, "name.length", 3)` returns normally. -/
theorem assertPropertyValue_string_length :
    nestedAccess (.obj 0 [("name", .str "abc")]) (splitPath "name.length") = none ∧
      assertPropertyValue (.obj 0 [("name", .str "abc")]) "name.length" (.num 3) = .ok () :=
  ⟨rfl, rfl⟩

/-- C2 (amended): when no object met on the way hides `hasOwnProperty`,
`assertPropertyValue` returns normally exactly when the walk by own properties
(keys of mappings, indices and `length` of sequences and non-empty strings, a string
counted in UTF-16 code units) reaches a value strictly equal to the expected one; it
fails with the path-absent message when the walk fails; when the walk reaches a
different value it fails with the expected/actual message built from the string
conversions of the two values where both have one, and ends in a `TypeError` where
one of them has none; the number 1 is not strictly equal to the string "1". -/
theorem assertPropertyValue_ownWalk (data : JsVal) (p : String) (expected : JsVal)
    (hs : unshadowed data (splitPath p) = true) :
    (assertPropertyValue data p expected = .ok () ↔
        ∃ v, ownWalk data (splitPath p) = some v ∧ v.strictEq expected = true) ∧
      (ownWalk data (splitPath p) = none →
        assertPropertyValue data p expected
          = .error (.error ("Property " ++ p ++ " does not exist in response"))) ∧
      (∀ v se sv, ownWalk data (splitPath p) = some v → v.strictEq expected = false →
        expected.toStr = some se → v.toStr = some sv →
        assertPropertyValue data p expected
          = .error (.error ("Expected " ++ p ++ " to be " ++ se ++ ", but got " ++ sv))) ∧
      (∀ v, ownWalk data (splitPath p) = some v → v.strictEq expected = false →
        expected.toStr = none ∨ v.toStr = none →
        assertPropertyValue data p expected = .error .typeError) ∧
      (JsVal.num 1).strictEq (.str "1") = false := by
  have hl := assertPropertyValue_loop_eq p _ data hs
  refine ⟨?_, ?_, ?_, ?_, rfl⟩
  · cases hw : ownWalk data (splitPath p) with
    | none =>
      rw [hw] at hl
      simp [assertPropertyValue, hl]
    | some v =>
      rw [hw] at hl
      cases he : v.strictEq expected with
      | true => simp [assertPropertyValue, hl, he]
      | false =>
        simp only [assertPropertyValue, hl, he]
        cases template [some "Expected ", some p, some " to be ",
                        expected.toStr, some ", but got ", v.toStr] <;> simp [he]
  · intro hw
    rw [hw] at hl
    simp [assertPropertyValue, hl]
  · intro v se sv hw he hse hsv
    rw [hw] at hl
    simp [assertPropertyValue, hl, he, hse, hsv, template_six]
  · intro v hw he hnone
    rw [hw] at hl
    rcases hnone with hn | hn
    · cases hv : v.toStr <;> simp [assertPropertyValue, hl, he, hn, hv, template]
    · cases hv : expected.toStr <;> simp [assertPropertyValue, hl, he, hn, hv, template]

/-- A string is measured in UTF-16 code units: for a name holding the one character
`U+1F600` the path `name.length` resolves to `2` and `name.1` to the second half of
the surrogate pair; where the value found has no string conversion, as the object
`{toString: "x"}`, a mismatch ends in a `TypeError`. -/
theorem assertPropertyValue_code_units :
    assertPropertyValue (.obj 0 [("name", .str "😀")]) "name.length" (.num 2) = .ok () ∧
      assertPropertyValue (.obj 0 [("name", .str "😀")]) "name.1" (.surrogate 56832)
        = .ok () ∧
      assertPropertyValue (.obj 0 [("a", .obj 1 [("toString", .str "x")])]) "a" (.num 1)
        = .error .typeError :=
  ⟨rfl, rfl, rfl⟩

/-- C2 (amended), at `{a: {b: {c: 5}}}`, path `a.b.c`, expected `5`. -/
theorem assertPropertyValue_ownWalk_witness :
    unshadowed (.obj 0 [("a", .obj 1 [("b", .obj 2 [("c", .num 5)])])]) (splitPath "a.b.c") = true ∧
      assertPropertyValue (.obj 0 [("a", .obj 1 [("b", .obj 2 [("c", .num 5)])])]) "a.b.c"
        (.num 5) = .ok () :=
  ⟨rfl, (assertPropertyValue_ownWalk (.obj 0 [("a", .obj 1 [("b", .obj 2 [("c", .num 5)])])])
      "a.b.c" (.num 5) rfl).1.2 ⟨.num 5, rfl, rfl⟩⟩

/-- C8: `assertArrayLength(value, n)` fails with `Expected an array` for every value
that is not an array, an object with a `length` field equal to `n` included; for an
array of length `k` it returns normally exactly when `k = n`, and otherwise fails with
`Expected array length n, but got k`. -/
theorem assertArrayLength_spec (value : JsVal) (n : Int) :
    (value.isArray = false →
        assertArrayLength value (.num n) = .error (.error "Expected an array")) ∧
      (∀ ref ps, assertArrayLength (.obj ref (("length", .num n) :: ps)) (.num n)
        = .error (.error "Expected an array")) ∧
      (∀ ref items, value = .arr ref items →
        (assertArrayLength value (.num n) = .ok () ↔ (items.length : Int) = n) ∧
        ((items.length : Int) ≠ n →
          assertArrayLength value (.num n)
            = .error (.error ("Expected array length " ++ toString n ++ ", but got "
                ++ toString (items.length : Int))))) := by
  refine ⟨?_, ?_, ?_⟩
  · intro h
    cases value <;> simp_all [assertArrayLength, JsVal.isArray]
  · intro ref ps
    rfl
  · rintro ref items rfl
    by_cases hk : (items.length : Int) = n
    · simp [assertArrayLength, JsVal.strictEq, hk]
    · refine ⟨?_, ?_⟩
      · simp only [assertArrayLength, JsVal.strictEq, JsVal.toStr, template_four]
        simp [hk]
      · intro _
        simp only [assertArrayLength, JsVal.strictEq, JsVal.toStr, template_four]
        simp [hk]

/-- C8, at `["a","b"]` and `["a"]` with expected length 2. -/
theorem assertArrayLength_spec_witness :
    assertArrayLength (.arr 0 [.str "a", .str "b"]) (.num 2) = .ok () ∧
      assertArrayLength (.arr 0 [.str "a"]) (.num 2)
        = .error (.error ("Expected array length " ++ toString (2 : Int) ++ ", but got "
            ++ toString (1 : Int))) ∧
      assertArrayLength (.str "ab") (.num 2) = .error (.error "Expected an array") :=
  ⟨((assertArrayLength_spec (.arr 0 [.str "a", .str "b"]) 2).2.2 0 _ rfl).1.2 (by decide),
   ((assertArrayLength_spec (.arr 0 [.str "a"]) 2).2.2 0 _ rfl).2 (by decide),
   (assertArrayLength_spec (.str "ab") 2).1 rfl⟩

/-- C9: `assertArrayNotEmpty(value)` fails with `Expected an array` for every value
that is not an array, with the different message `Expected array to not be empty` for
the empty array, and returns normally for every array with at least one element. -/
theorem assertArrayNotEmpty_spec (value : JsVal) :
    (value.isArray = false →
        assertArrayNotEmpty value = .error (.error "Expected an array")) ∧
      (∀ ref, assertArrayNotEmpty (.arr ref []) = .error (.error "Expected array to not be empty")) ∧
      (∀ ref x xs, assertArrayNotEmpty (.arr ref (x :: xs)) = .ok ()) ∧
      "Expected an array" ≠ "Expected array to not be empty" := by
  refine ⟨?_, ?_, ?_, by decide⟩
  · intro h
    cases value <;> simp_all [assertArrayNotEmpty, JsVal.isArray]
  · intro ref
    rfl
  · intro ref x xs
    have : ((xs.length : Int) + 1 == 0) = false := by
      simp only [beq_eq_false_iff_ne, ne_eq]
      omega
    simp [assertArrayNotEmpty, JsVal.strictEq, this]

/-- C9, at the object `{length: 1}`, which is not an array. -/
theorem assertArrayNotEmpty_spec_witness :
    JsVal.isArray (.obj 0 [("length", .num 1)]) = false ∧
      assertArrayNotEmpty (.obj 0 [("length", .num 1)]) = .error (.error "Expected an array") :=
  ⟨rfl, (assertArrayNotEmpty_spec (.obj 0 [("length", .num 1)])).1 rfl⟩

/-- C10: `assertStatusCode` returns normally, and the `toHaveStatusCode` matcher
reports `pass = true`, exactly when `response.status === expectedStatus`; when the
two differ `assertStatusCode` fails with `Expected status {expected}, but got {actual}`
built from the string conversions of the two codes; the string "200" does not match
the number 200. -/
theorem assertStatusCode_spec (response : Response) (expected : JsVal) :
    (assertStatusCode response expected = .ok () ↔
        response.status.strictEq expected = true) ∧
      ((toHaveStatusCode response expected).pass = .bool true ↔
        response.status.strictEq expected = true) ∧
      (∀ se ss, response.status.strictEq expected = false →
        expected.toStr = some se → response.status.toStr = some ss →
        assertStatusCode response expected
          = .error (.error ("Expected status " ++ se ++ ", but got " ++ ss))) ∧
      (JsVal.str "200").strictEq (.num 200) = false ∧
      (JsVal.num 200).strictEq (.str "200") = false := by
  refine ⟨?_, ?_, ?_, rfl, rfl⟩
  · cases he : response.status.strictEq expected with
    | true => simp [assertStatusCode, he]
    | false =>
      simp only [assertStatusCode, he]
      cases template [some "Expected status ", expected.toStr,
                      some ", but got ", response.status.toStr] <;> simp
  · simp [toHaveStatusCode]
  · intro se ss he hse hss
    simp [assertStatusCode, he, hse, hss, template_four]

/-- C10, at status `200` against the expected string "200". -/
theorem assertStatusCode_spec_witness :
    assertStatusCode ⟨.num 200, [], .null, .undefined⟩ (.str "200")
      = .error (.error ("Expected status " ++ "200" ++ ", but got " ++ "200")) ∧
    assertStatusCode ⟨.num 200, [], .null, .undefined⟩ (.num 200) = .ok () :=
  ⟨(assertStatusCode_spec ⟨.num 200, [], .null, .undefined⟩ (.str "200")).2.2.1
      "200" "200" rfl rfl rfl,
   (assertStatusCode_spec ⟨.num 200, [], .null, .undefined⟩ (.num 200)).1.2 rfl⟩

end ApiHarness

namespace ApiHarness
open JsVal ApiAssertions Matchers

/-! ## The factory -/

theorem lookupProp_setProp (k key : String) (v : JsVal) (ps : Props) :
    lookupProp k (setProp key v ps) = if key == k then some v else lookupProp k ps := by
  induction ps with
  | nil => simp [setProp, lookupProp]
  | cons q qs ih =>
    obtain ⟨k', w⟩ := q
    by_cases h1 : (k' == key) = true
    · have hk : k' = key := by simpa using h1
      subst hk
      by_cases h2 : (k' == k) = true <;> simp [setProp, lookupProp, h2]
    · have h1' : (k' == key) = false := by simpa using h1
      simp only [setProp, h1', lookupProp, ih]
      by_cases h2 : (k' == k) = true
      · have hk : k' = k := by simpa using h2
        subst hk
        have : (key == k') = false := by
          simp only [beq_eq_false_iff_ne, ne_eq] at h1' ⊢
          exact fun h => h1' h.symm
        simp [this]
      · have h2' : (k' == k) = false := by simpa using h2
        simp [h2']

theorem lookupProp_none_of_not_mem (k : String) (ps : Props)
    (h : k ∉ ps.map Prod.fst) : lookupProp k ps = none := by
  induction ps with
  | nil => rfl
  | cons q qs ih =>
    obtain ⟨k', w⟩ := q
    simp only [List.map_cons, List.mem_cons, not_or] at h
    have : (k' == k) = false := by
      simp only [beq_eq_false_iff_ne, ne_eq]
      exact fun e => h.1 e.symm
    simp [lookupProp, this, ih h.2]

/-- Lookup in a spread: the override when the key is overridden, the literal's value
otherwise. -/
theorem lookupProp_spread (k : String) (overrides literal : Props)
    (hd : (overrides.map Prod.fst).Nodup) :
    lookupProp k (TestDataFactory.spread literal overrides) =
      match lookupProp k overrides with
      | some v => some v
      | none => lookupProp k literal := by
  induction overrides generalizing literal with
  | nil => simp [TestDataFactory.spread, lookupProp]
  | cons q qs ih =>
    obtain ⟨k', w⟩ := q
    simp only [List.map_cons, List.nodup_cons] at hd
    have ih' := ih (setProp k' w literal) hd.2
    simp only [TestDataFactory.spread, List.foldl_cons] at ih' ⊢
    rw [ih', lookupProp_setProp]
    by_cases h : (k' == k) = true
    · have hk : k' = k := by simpa using h
      subst hk
      simp [lookupProp, lookupProp_none_of_not_mem _ _ hd.1]
    · have h' : (k' == k) = false := by simpa using h
      simp [lookupProp, h']

/-- C7: for every overrides mapping `o` (distinct keys), the records built by
`generateUser`, `generatePost` and `generateComment` hold at each key `k` the value
`o[k]` when `o` has the key and the default of the entity otherwise, at the top level
only; with no override the record is the default, and `{name: "X"}` changes `name`
alone. -/
theorem generate_override_merge (fresh : Nat) (o : Props) (k : String)
    (hd : (o.map Prod.fst).Nodup) :
    (lookupProp k (propsOf (TestDataFactory.generateUser fresh o)) =
        match lookupProp k o with
        | some v => some v
        | none => lookupProp k (TestDataFactory.userDefaults fresh)) ∧
      (lookupProp k (propsOf (TestDataFactory.generatePost fresh o)) =
        match lookupProp k o with
        | some v => some v
        | none => lookupProp k TestDataFactory.postDefaults) ∧
      (lookupProp k (propsOf (TestDataFactory.generateComment fresh o)) =
        match lookupProp k o with
        | some v => some v
        | none => lookupProp k TestDataFactory.commentDefaults) ∧
      TestDataFactory.generateUser fresh [] = .obj fresh (TestDataFactory.userDefaults fresh) ∧
      TestDataFactory.generateUser fresh [("name", .str "X")]
        = .obj fresh (("name", .str "X") :: (TestDataFactory.userDefaults fresh).tail) :=
  ⟨lookupProp_spread k o _ hd, lookupProp_spread k o _ hd, lookupProp_spread k o _ hd,
   rfl, rfl⟩

/-- C7, at the overrides `{id: 7, address: {street: "S"}}`: the new key `id` is
added and the whole nested `address` is replaced. -/
theorem generate_override_merge_witness :
    ([("id", JsVal.num 7), ("address", JsVal.obj 9 [("street", .str "S")])].map Prod.fst).Nodup ∧
      lookupProp "address" (propsOf (TestDataFactory.generateUser 0
        [("id", .num 7), ("address", .obj 9 [("street", .str "S")])]))
        = some (.obj 9 [("street", .str "S")]) :=
  ⟨by decide,
   (generate_override_merge 0 [("id", .num 7), ("address", .obj 9 [("street", .str "S")])]
      "address" (by decide)).1⟩

end ApiHarness

namespace ApiHarness
open JsVal ApiAssertions Matchers

/-! ## Schema validation -/

namespace Joi

theorem check_undefined (isEmail : String → Bool) (opts : Options) (s : Schema)
    (path : List String) :
    s.check isEmail opts path .undefined
      = (.undefined, if s.isRequired then [detail "any.required" path " is required"] else []) := by
  cases s <;> simp [Schema.check, checkNumber, checkString, Schema.isRequired]

theorem lookupProp_removeProp_ne (k key : String) (ps : Props) (h : (key == k) = false) :
    lookupProp k (removeProp key ps) = lookupProp k ps := by
  induction ps with
  | nil => rfl
  | cons q qs ih =>
    obtain ⟨k', w⟩ := q
    simp only [removeProp] at ih
    by_cases h1 : (k' == key) = true
    · have hk : k' = key := by simpa using h1
      subst hk
      simp [removeProp, lookupProp, h, ih]
    · have h1' : (k' == key) = false := by simpa using h1
      simp [removeProp, lookupProp, h1', ih]

theorem itemOf_setProp_ne (k key : String) (v : JsVal) (ps : Props) (h : (key == k) = false) :
    itemOf k (setProp key v ps) = itemOf k ps := by
  simp [itemOf, lookupProp_setProp, h]

theorem itemOf_removeProp_ne (k key : String) (ps : Props) (h : (key == k) = false) :
    itemOf k (removeProp key ps) = itemOf k ps := by
  simp [itemOf, lookupProp_removeProp_ne _ _ _ h]

/-- Records that agree on every declared key have the same key errors. -/
theorem keyErrors_congr (isEmail : String → Bool) (opts : Options) (path : List String)
    (keys : List (String × Schema)) (ps qs : Props)
    (h : ∀ kc ∈ keys, itemOf kc.1 ps = itemOf kc.1 qs) :
    keyErrors isEmail opts path ps keys = keyErrors isEmail opts path qs keys := by
  induction keys with
  | nil => rfl
  | cons kc rest ih =>
    simp only [keyErrors]
    rw [h kc (List.mem_cons_self _ _), ih (fun x hx => h x (List.mem_cons_of_mem _ hx))]

/-- Without `abortEarly` the loop over the declared keys reports the errors of every
key (distinct keys). -/
theorem checkKeys_errors (isEmail : String → Bool) (au : Bool) (path : List String)
    (keys : List (String × Schema)) (ps : Props) (hd : (keys.map Prod.fst).Nodup) :
    (checkKeys isEmail ⟨false, au⟩ keys path ps).2
      = keyErrors isEmail ⟨false, au⟩ path ps keys := by
  induction keys generalizing ps with
  | nil => simp [checkKeys, keyErrors]
  | cons kc rest ih =>
    simp only [List.map_cons, List.nodup_cons] at hd
    have hne : ∀ x ∈ rest, (kc.1 == x.1) = false := by
      intro x hx
      simp only [beq_eq_false_iff_ne, ne_eq]
      intro e
      exact hd.1 (e ▸ List.mem_map_of_mem Prod.fst hx)
    have hset : ∀ v, keyErrors isEmail ⟨false, au⟩ path (setProp kc.1 v ps) rest
        = keyErrors isEmail ⟨false, au⟩ path ps rest := fun v =>
      keyErrors_congr _ _ _ _ _ _ (fun x hx => itemOf_setProp_ne _ _ _ _ (hne x hx))
    have hrem : keyErrors isEmail ⟨false, au⟩ path (removeProp kc.1 ps) rest
        = keyErrors isEmail ⟨false, au⟩ path ps rest :=
      keyErrors_congr _ _ _ _ _ _ (fun x hx => itemOf_removeProp_ne _ _ _ (hne x hx))
    rw [checkKeys]
    simp only [keyErrors, itemOf]
    generalize hr : Schema.check isEmail ⟨false, au⟩ kc.2 (path ++ [kc.1])
      ((lookupProp kc.1 ps).getD .undefined) = r
    obtain ⟨rv, re⟩ := r
    by_cases hemp : re.isEmpty = true
    · have hnil : re = [] := by simpa using hemp
      subst hnil
      cases rv <;> cases hi : (lookupProp kc.1 ps).getD .undefined <;>
        simp [ih _ hd.2, hset, hrem]
    · have hemp' : re.isEmpty = false := by simpa using hemp
      cases rv <;> simp [hemp', ih _ hd.2, hset]

/-- With every present declared field valid, the key errors are one `any.required`
per missing required key, in declaration order. -/
theorem keyErrors_missing (isEmail : String → Bool) (opts : Options) (path : List String)
    (ps : Props) (keys : List (String × Schema))
    (hvalid : ∀ kc ∈ keys, isUndefined (itemOf kc.1 ps) = false →
      (kc.2.check isEmail opts (path ++ [kc.1]) (itemOf kc.1 ps)).2 = []) :
    keyErrors isEmail opts path ps keys
      = (missingRequired keys ps).map
          (fun k => detail "any.required" (path ++ [k]) " is required") := by
  induction keys with
  | nil => rfl
  | cons kc rest ih =>
    have ih' := ih (fun x hx => hvalid x (List.mem_cons_of_mem _ hx))
    have hhead := hvalid kc (List.mem_cons_self _ _)
    simp only [missingRequired] at ih'
    simp only [keyErrors, missingRequired, List.filter_cons, ih']
    cases hu : isUndefined (itemOf kc.1 ps) with
    | false => simp [hhead hu]
    | true =>
      have hi : itemOf kc.1 ps = .undefined := by
        cases hv : itemOf kc.1 ps <;> simp_all [isUndefined]
      rw [hi, check_undefined]
      cases hr : kc.2.isRequired <;> simp

theorem setProp_self (k : String) (v : JsVal) (ps : Props) (h : lookupProp k ps = some v) :
    setProp k v ps = ps := by
  induction ps with
  | nil => simp [lookupProp] at h
  | cons q qs ih =>
    obtain ⟨k', w⟩ := q
    by_cases h1 : (k' == k) = true
    · simp only [lookupProp, h1, if_true, Option.some.injEq] at h
      simp [setProp, h1, h]
    · have h1' : (k' == k) = false := by simpa using h1
      simp only [lookupProp, h1'] at h
      simp [setProp, h1', ih h]

theorem setProp_itemOf (k : String) (ps : Props) (h : isUndefined (itemOf k ps) = false) :
    setProp k (itemOf k ps) ps = ps := by
  cases hl : lookupProp k ps with
  | none => simp [itemOf, hl, isUndefined] at h
  | some v => simpa [itemOf, hl] using setProp_self k v ps hl

mutual
/-- Validation returns its input when it converts nothing. -/
theorem check_value (isEmail : String → Bool) (opts : Options) :
    ∀ (s : Schema) (path : List String) (v : JsVal), convertsNothing s v = true →
      (s.check isEmail opts path v).1 = v
  | .number r, path, v, h => by
    cases v <;> simp_all [Schema.check, checkNumber, convertsNothing]
    all_goals split <;> simp_all
  | .string r e, path, v, h => by
    cases v <;> simp [Schema.check, checkString]
    all_goals split <;> try split
    all_goals rfl
  | .object r keys, path, v, h => by
    cases v with
    | obj ref ps =>
      have hk : convertsNothingKeys keys ps = true := by simpa [convertsNothing] using h
      have := checkKeys_value isEmail opts keys path ps hk
      simp only [Schema.check]
      split <;> simp [this]
    | _ => simp [Schema.check]
theorem checkKeys_value (isEmail : String → Bool) (opts : Options) :
    ∀ (keys : List (String × Schema)) (path : List String) (ps : Props),
      convertsNothingKeys keys ps = true → (checkKeys isEmail opts keys path ps).1 = ps
  | [], path, ps, h => by simp [checkKeys]
  | kc :: rest, path, ps, h => by
    simp only [convertsNothingKeys, Bool.and_eq_true] at h
    have h1 := check_value isEmail opts kc.2 (path ++ [kc.1]) (itemOf kc.1 ps) h.1
    have h2 := checkKeys_value isEmail opts rest path ps h.2
    rw [checkKeys]
    have hitem : (lookupProp kc.1 ps).getD .undefined = itemOf kc.1 ps := rfl
    simp only [hitem]
    generalize Schema.check isEmail opts kc.2 (path ++ [kc.1]) (itemOf kc.1 ps) = r at h1
    obtain ⟨rv, re⟩ := r
    simp only at h1
    subst h1
    cases hi : isUndefined (itemOf kc.1 ps) with
    | true =>
      have hu : itemOf kc.1 ps = .undefined := by
        cases hv : itemOf kc.1 ps <;> simp_all [isUndefined]
      simp only [hu]
      split <;> try split
      all_goals simp [h2]
    | false =>
      have hs := setProp_itemOf kc.1 ps hi
      cases hv : itemOf kc.1 ps <;> simp_all [isUndefined]
      all_goals split
      all_goals first
        | rfl
        | (split <;> simp_all)
        | simp_all
end

end Joi

end ApiHarness

namespace ApiHarness
open JsVal ApiAssertions Matchers SchemaValidator Joi

theorem builtin_object (s : Schema) (hs : s ∈ builtinSchemas) :
    s = .object false s.keys ∧ (s.keys.map Prod.fst).Nodup := by
  simp only [builtinSchemas, List.mem_cons, List.mem_singleton, List.not_mem_nil, or_false] at hs
  rcases hs with rfl | rfl | rfl | rfl
  · exact ⟨rfl, by decide⟩
  · exact ⟨rfl, by decide⟩
  · exact ⟨rfl, by decide⟩
  · exact ⟨rfl, by decide⟩

/-- The errors `validateResponse` gets for a record against an object schema: those
of every declared key, unknown keys being allowed. -/
theorem validate_record_errors (isEmail : String → Bool) (req : Bool)
    (keys : List (String × Schema)) (hd : (keys.map Prod.fst).Nodup) (ref : Nat) (ps : Props) :
    ((Schema.object req keys).check isEmail ⟨false, true⟩ [] (.obj ref ps)).2
      = keyErrors isEmail ⟨false, true⟩ [] ps keys := by
  simp [Schema.check, checkKeys_errors _ _ _ _ _ hd]

theorem validateResponse_of_errors (data : JsVal) (schema : SchemaLike) (details : List Detail)
    (h : (schema data ⟨false, true⟩).error = some details) :
    validateResponse data schema
      = .error (.error ("Schema validation failed: "
          ++ ", ".intercalate (details.map (fun d => d.message)))) := by
  simp [validateResponse, h]

/-- C3: a record that lacks `k ≥ 2` required fields of a built-in schema, its present
declared fields being valid, fails validation with exactly one violation per missing
field: the `k` messages `"field" is required`, in declaration order, all of them in
the error raised. -/
theorem validateResponse_missing_required (isEmail : String → Bool) (s : Schema)
    (hs : s ∈ builtinSchemas) (ref : Nat) (ps : Props)
    (hvalid : ∀ kc ∈ s.keys, isUndefined (itemOf kc.1 ps) = false →
      (kc.2.check isEmail ⟨false, true⟩ [kc.1] (itemOf kc.1 ps)).2 = [])
    (hk : 2 ≤ (missingRequired s.keys ps).length) :
    ∃ details,
      (s.validate isEmail (.obj ref ps) ⟨false, true⟩).error = some details ∧
      details.length = (missingRequired s.keys ps).length ∧
      details.map (fun d => d.message)
        = (missingRequired s.keys ps).map (fun k => "\"" ++ k ++ "\" is required") ∧
      validateResponse (.obj ref ps) (s.validate isEmail)
        = .error (.error ("Schema validation failed: " ++ ", ".intercalate
            ((missingRequired s.keys ps).map (fun k => "\"" ++ k ++ "\" is required")))) := by
  obtain ⟨hobj, hd⟩ := builtin_object s hs
  have herr : (s.check isEmail ⟨false, true⟩ [] (.obj ref ps)).2
      = (missingRequired s.keys ps).map (fun k => detail "any.required" [k] " is required") := by
    rw [hobj, validate_record_errors isEmail false _ hd]
    simpa using keyErrors_missing isEmail ⟨false, true⟩ [] ps s.keys (by simpa using hvalid)
  have hmsg : ((missingRequired s.keys ps).map
        (fun k => detail "any.required" [k] " is required")).map (fun d => d.message)
      = (missingRequired s.keys ps).map (fun k => "\"" ++ k ++ "\" is required") := by
    simp [detail, label, String.intercalate, String.intercalate.go, String.append_assoc]
  have hne : ((missingRequired s.keys ps).map
      (fun k => detail "any.required" [k] " is required")).isEmpty = false := by
    cases hm : missingRequired s.keys ps with
    | nil => simp [hm] at hk
    | cons a l => rfl
  have herror : (s.validate isEmail (.obj ref ps) ⟨false, true⟩).error
      = some ((missingRequired s.keys ps).map
          (fun k => detail "any.required" [k] " is required")) := by
    simp only [Schema.validate, herr, hne]
    rfl
  refine ⟨_, herror, by simp, hmsg, ?_⟩
  rw [validateResponse_of_errors _ _ _ herror, hmsg]

/-- C3, at `{id: 1, name: "A"}` against the user schema: two violations, `username`
and `email`. -/
theorem validateResponse_missing_required_witness :
    missingRequired schemas.user.keys [("id", .num 1), ("name", .str "A")]
        = ["username", "email"] ∧
      ∃ details,
        (schemas.user.validate (fun _ => true) (.obj 0 [("id", .num 1), ("name", .str "A")])
            ⟨false, true⟩).error = some details ∧
        details.length = 2 ∧
        validateResponse (.obj 0 [("id", .num 1), ("name", .str "A")])
            (schemas.user.validate (fun _ => true))
          = .error (.error
              "Schema validation failed: \"username\" is required, \"email\" is required") := by
  refine ⟨rfl, ?_⟩
  obtain ⟨details, h1, h2, _, h4⟩ :=
    validateResponse_missing_required (fun _ => true) schemas.user (by simp [builtinSchemas])
      0 [("id", .num 1), ("name", .str "A")]
      (by
        intro kc hkc
        simp only [schemas.user, Schema.keys, List.mem_cons, List.mem_singleton,
          List.not_mem_nil, or_false] at hkc
        rcases hkc with rfl | rfl | rfl | rfl | rfl | rfl | rfl | rfl <;> intro h <;>
          first
            | rfl
            | exact absurd h (by decide))
      (by decide)
  exact ⟨details, h1, h2, h4⟩

/-- C4 as stated fails: the record `{id: 1, name: "", username: "a", email: "a@b.com"}`
has a numeric id and string name, username and email (whatever the e-mail rule
accepts), yet validation against the user schema fails, the empty string not being
allowed for a declared string. -/
theorem validateResponse_user_empty_name :
    validateResponse
        (.obj 0 [("id", .num 1), ("name", .str ""), ("username", .str "a"),
                 ("email", .str "a@b.com")])
        (schemas.user.validate (fun _ => true))
      = .error (.error "Schema validation failed: \"name\" is not allowed to be empty") :=
  rfl

theorem optional_key_ok (isEmail : String → Bool) (ps : Props) (kc : String × Schema)
    (hr : kc.2.isRequired = false)
    (h : lookupProp kc.1 ps = none ∨
      (kc.2.check isEmail ⟨false, true⟩ [kc.1] (itemOf kc.1 ps)).2 = []) :
    (kc.2.check isEmail ⟨false, true⟩ [kc.1] (itemOf kc.1 ps)).2 = [] := by
  rcases h with h | h
  · simp [itemOf, h, check_undefined, hr]
  · exact h

/-- C4 (amended): a record with an id that is a number in the safe-integer range, a
non-empty string name, a non-empty string username and a non-empty string email that
the e-mail rule accepts validates against the user schema, every optional field being
omitted or valid, whatever other fields it has; the value returned has no error. -/
theorem validateResponse_user_lower_bound (isEmail : String → Bool) (ref : Nat) (ps : Props)
    (n : Int) (name username email : String)
    (hid : lookupProp "id" ps = some (.num n))
    (hsafe : -maxSafeInteger ≤ n ∧ n ≤ maxSafeInteger)
    (hname : lookupProp "name" ps = some (.str name)) (hname' : name ≠ "")
    (huser : lookupProp "username" ps = some (.str username)) (huser' : username ≠ "")
    (hemail : lookupProp "email" ps = some (.str email)) (hemail' : email ≠ "")
    (hfmt : isEmail email = true)
    (hopt : ∀ kc ∈ schemas.user.keys, kc.2.isRequired = false →
      lookupProp kc.1 ps = none ∨
        (kc.2.check isEmail ⟨false, true⟩ [kc.1] (itemOf kc.1 ps)).2 = []) :
    (schemas.user.validate isEmail (.obj ref ps) ⟨false, true⟩).error = none ∧
      ∃ v, validateResponse (.obj ref ps) (schemas.user.validate isEmail) = .ok v := by
  have hkeys : keyErrors isEmail ⟨false, true⟩ [] ps schemas.user.keys = [] := by
    have hrange : (decide (n > maxSafeInteger) || decide (n < -maxSafeInteger)) = false := by
      simp only [Bool.or_eq_false_iff, decide_eq_false_iff_not]
      constructor <;> omega
    have h5 := optional_key_ok isEmail ps (schemas.user.keys.get ⟨4, by decide⟩) rfl
      (hopt _ (by simp [schemas.user, Schema.keys]) rfl)
    have h6 := optional_key_ok isEmail ps (schemas.user.keys.get ⟨5, by decide⟩) rfl
      (hopt _ (by simp [schemas.user, Schema.keys]) rfl)
    have h7 := optional_key_ok isEmail ps (schemas.user.keys.get ⟨6, by decide⟩) rfl
      (hopt _ (by simp [schemas.user, Schema.keys]) rfl)
    have h8 := optional_key_ok isEmail ps (schemas.user.keys.get ⟨7, by decide⟩) rfl
      (hopt _ (by simp [schemas.user, Schema.keys]) rfl)
    simp only [schemas.user, Schema.keys, List.get] at h5 h6 h7 h8
    simp only [schemas.user, Schema.keys, keyErrors, List.nil_append, h5, h6, h7, h8]
    simp [itemOf, hid, hname, huser, hemail, Schema.check, checkNumber, checkString, hrange,
      hname', huser', hemail', hfmt]
  have herr : (schemas.user.check isEmail ⟨false, true⟩ [] (.obj ref ps)).2 = [] := by
    have := validate_record_errors isEmail false schemas.user.keys (by decide) ref ps
    rw [hkeys] at this
    exact this
  have hnone : (schemas.user.validate isEmail (.obj ref ps) ⟨false, true⟩).error = none := by
    simp [Schema.validate, herr]
  refine ⟨hnone, (schemas.user.validate isEmail (.obj ref ps) ⟨false, true⟩).value, ?_⟩
  simp [validateResponse, hnone]

/-- C4 (amended), at `{id: 1, name: "A", username: "a", email: "a@b.com"}` with the
unknown field `extra` added, the e-mail rule accepting what contains `@`. -/
theorem validateResponse_user_lower_bound_witness :
    lookupProp "extra"
        [("id", JsVal.num 1), ("name", .str "A"), ("username", .str "a"),
         ("email", .str "a@b.com"), ("extra", .bool true)] = some (.bool true) ∧
      ∃ v, validateResponse
          (.obj 0 [("id", .num 1), ("name", .str "A"), ("username", .str "a"),
                   ("email", .str "a@b.com"), ("extra", .bool true)])
          (schemas.user.validate (fun s => s.toList.contains '@')) = .ok v :=
  ⟨rfl,
   (validateResponse_user_lower_bound (fun s => s.toList.contains '@') 0
      [("id", .num 1), ("name", .str "A"), ("username", .str "a"),
       ("email", .str "a@b.com"), ("extra", .bool true)]
      1 "A" "a" "a@b.com" rfl (by decide) rfl (by decide) rfl (by decide) rfl (by decide)
      (by decide)
      (by
        intro kc hkc hr
        simp only [schemas.user, Schema.keys, List.mem_cons, List.mem_singleton,
          List.not_mem_nil, or_false] at hkc
        rcases hkc with rfl | rfl | rfl | rfl | rfl | rfl | rfl | rfl <;>
          first
            | exact Or.inl rfl
            | exact absurd hr (by decide))).2⟩

/-- C5 as stated fails: validation of `{id: "1", name: "A", username: "a",
email: "a@b.com"}` against the user schema succeeds and the value returned has the
number `1` at `id`, not the string "1" that was supplied. -/
theorem validateResponse_converts_numeric_string :
    validateResponse
        (.obj 0 [("id", .str "1"), ("name", .str "A"), ("username", .str "a"),
                 ("email", .str "a@b.com")])
        (schemas.user.validate (fun _ => true))
      = .ok (.obj 0 [("id", .num 1), ("name", .str "A"), ("username", .str "a"),
                     ("email", .str "a@b.com")]) ∧
      JsVal.obj 0 [("id", .num 1), ("name", .str "A"), ("username", .str "a"),
                   ("email", .str "a@b.com")]
        ≠ .obj 0 [("id", .str "1"), ("name", .str "A"), ("username", .str "a"),
                  ("email", .str "a@b.com")] :=
  ⟨rfl, by simp⟩

/-- C5 (amended): when `validateResponse` succeeds on a value in which no field
declared as a number holds a numeric string, the value it returns is the input. -/
theorem validateResponse_value_unchanged (isEmail : String → Bool) (s : Schema)
    (data v : JsVal) (hc : convertsNothing s data = true)
    (h : validateResponse data (s.validate isEmail) = .ok v) : v = data := by
  have hv := check_value isEmail ⟨false, true⟩ s [] data hc
  simp only [validateResponse, Schema.validate] at h
  split at h
  · simp at h
  · simp only [Except.ok.injEq] at h
    rw [← h, hv]

/-- C5 (amended), at `{id: 1, name: "A", username: "a", email: "a@b.com"}` against
the user schema. -/
theorem validateResponse_value_unchanged_witness :
    convertsNothing schemas.user
        (.obj 0 [("id", .num 1), ("name", .str "A"), ("username", .str "a"),
                 ("email", .str "a@b.com")]) = true ∧
      (schemas.user.validate (fun _ => true)
          (.obj 0 [("id", .num 1), ("name", .str "A"), ("username", .str "a"),
                   ("email", .str "a@b.com")]) ⟨false, true⟩).value
        = .obj 0 [("id", .num 1), ("name", .str "A"), ("username", .str "a"),
                  ("email", .str "a@b.com")] :=
  ⟨rfl, validateResponse_value_unchanged (fun _ => true) schemas.user _ _ rfl rfl⟩

/-- C6: when the validation reports violations `m₁ … mₙ`, `validateResponse` raises
one error whose message is `Schema validation failed: ` followed by the messages
joined with `, `, in the validator's order; when it reports none, nothing is raised
and the validator's value is returned. -/
theorem validateResponse_combined_message (schema : SchemaLike) (data : JsVal) :
    (∀ details, (schema data ⟨false, true⟩).error = some details →
        validateResponse data schema
          = .error (.error ("Schema validation failed: "
              ++ ", ".intercalate (details.map (fun d => d.message))))) ∧
      ((schema data ⟨false, true⟩).error = none →
        validateResponse data schema = .ok (schema data ⟨false, true⟩).value) := by
  refine ⟨fun details h => validateResponse_of_errors data schema details h, fun h => ?_⟩
  simp [validateResponse, h]

/-- C6, at `{id: 1, name: "A"}` against the user schema. -/
theorem validateResponse_combined_message_witness :
    validateResponse (.obj 0 [("id", .num 1), ("name", .str "A")])
        (schemas.user.validate (fun _ => true))
      = .error (.error ("Schema validation failed: " ++ ", ".intercalate
          ["\"username\" is required", "\"email\" is required"])) :=
  (validateResponse_combined_message (schemas.user.validate (fun _ => true))
      (.obj 0 [("id", .num 1), ("name", .str "A")])).1
    [⟨"\"username\" is required", ["username"], "any.required"⟩,
     ⟨"\"email\" is required", ["email"], "any.required"⟩] rfl

end ApiHarness

namespace ApiHarness
open JsVal ApiAssertions Matchers

/-! ## Headers -/

theorem map_toLower_of_forall₂ (a b : List Char)
    (h : List.Forall₂ (fun x y => x.toLower = y.toLower) a b) :
    a.map Char.toLower = b.map Char.toLower := by
  induction h with
  | nil => rfl
  | cons hxy _ ih => simp [hxy, ih]

theorem forall₂_of_map_toLower (a b : List Char)
    (h : a.map Char.toLower = b.map Char.toLower) :
    List.Forall₂ (fun x y => x.toLower = y.toLower) a b := by
  induction a generalizing b with
  | nil =>
    cases b with
    | nil => exact List.Forall₂.nil
    | cons y ys => simp at h
  | cons x xs ih =>
    cases b with
    | nil => simp at h
    | cons y ys =>
      simp only [List.map_cons, List.cons.injEq] at h
      exact List.Forall₂.cons h.1 (ih ys h.2)

theorem toLowerCase_eq_iff (a b : String) :
    toLowerCase a = toLowerCase b ↔ differOnlyInCase a b := by
  constructor
  · intro h
    apply forall₂_of_map_toLower
    exact congrArg String.data h
  · intro h
    exact congrArg String.mk (map_toLower_of_forall₂ _ _ h)

theorem passes_assertHeader (response : Response) (h : String) (v : JsVal) :
    passes (assertHeader response h v)
      = (itemOf (toLowerCase h) response.headers).strictEq v := by
  cases he : (itemOf (toLowerCase h) response.headers).strictEq v with
  | true => simp [assertHeader, he, passes]
  | false =>
    simp only [assertHeader, he]
    cases template [some "Expected header ", some h, some " to be ", v.toStr,
      some ", but got ", (itemOf (toLowerCase h) response.headers).toStr] <;> simp [passes]

theorem passes_assertHeaderExists (response : Response) (h : String) :
    passes (assertHeaderExists response h)
      = (!hasKey "hasOwnProperty" response.headers
          && hasKey (toLowerCase h) response.headers) := by
  cases hs : hasKey "hasOwnProperty" response.headers <;>
    cases hk : hasKey (toLowerCase h) response.headers <;>
    simp [assertHeaderExists, JsVal.hasOwnProperty, hs, hk, passes]

theorem hasKey_iff (k : String) (ps : Props) :
    hasKey k ps = true ↔ ∃ p ∈ ps, p.1 = k := by
  simp [hasKey, List.any_eq_true]

/-- C11: for a response whose header keys are lowercase, `assertHeader` and
`assertHeaderExists` pass or fail alike for two header names that differ only in
letter case, and `assertHeaderExists` passes exactly when some header key is the
name up to letter case. -/
theorem header_lookup_case_insensitive (response : Response) (h h' : String) (v : JsVal)
    (hlow : ∀ p ∈ response.headers, toLowerCase p.1 = p.1)
    (hcase : differOnlyInCase h h') :
    passes (assertHeader response h v) = passes (assertHeader response h' v) ∧
      passes (assertHeaderExists response h) = passes (assertHeaderExists response h') ∧
      (passes (assertHeaderExists response h) = true ↔
        ∃ p ∈ response.headers, differOnlyInCase p.1 h) := by
  have hl : toLowerCase h = toLowerCase h' := (toLowerCase_eq_iff h h').2 hcase
  refine ⟨?_, ?_, ?_⟩
  · rw [passes_assertHeader, passes_assertHeader, hl]
  · rw [passes_assertHeaderExists, passes_assertHeaderExists, hl]
  · have hno : hasKey "hasOwnProperty" response.headers = false := by
      cases hk : hasKey "hasOwnProperty" response.headers with
      | false => rfl
      | true =>
        obtain ⟨p, hp, hpk⟩ := (hasKey_iff _ _).1 hk
        have := hlow p hp
        rw [hpk] at this
        exact absurd this (by decide)
    rw [passes_assertHeaderExists, hno]
    simp only [Bool.not_false, Bool.true_and, hasKey_iff]
    constructor
    · rintro ⟨p, hp, hpk⟩
      refine ⟨p, hp, (toLowerCase_eq_iff _ _).1 ?_⟩
      rw [hlow p hp, hpk]
    · rintro ⟨p, hp, hd⟩
      refine ⟨p, hp, ?_⟩
      rw [← hlow p hp]
      exact (toLowerCase_eq_iff _ _).2 hd

/-- C11, at the header `content-type` looked up as `Content-Type` and as
`CONTENT-TYPE`. -/
theorem header_lookup_case_insensitive_witness :
    differOnlyInCase "Content-Type" "CONTENT-TYPE" ∧
      passes (assertHeader ⟨.num 200, [("content-type", .str "text/html")], .null, .undefined⟩
          "Content-Type" (.str "text/html"))
        = passes (assertHeader ⟨.num 200, [("content-type", .str "text/html")], .null, .undefined⟩
          "CONTENT-TYPE" (.str "text/html")) ∧
      passes (assertHeaderExists
          ⟨.num 200, [("content-type", .str "text/html")], .null, .undefined⟩ "Content-Type")
        = true :=
  have hc : differOnlyInCase "Content-Type" "CONTENT-TYPE" :=
    (toLowerCase_eq_iff _ _).1 (by decide)
  have hw := header_lookup_case_insensitive
    ⟨.num 200, [("content-type", .str "text/html")], .null, .undefined⟩
    "Content-Type" "CONTENT-TYPE" (.str "text/html")
    (by
      intro p hp
      simp only [List.mem_singleton] at hp
      subst hp
      decide)
    hc
  ⟨hc, hw.1, hw.2.2.2 ⟨("content-type", .str "text/html"), by simp,
    (toLowerCase_eq_iff _ _).1 (by decide)⟩⟩

end ApiHarness

namespace ApiHarness
open JsVal ApiAssertions Matchers

/-! ## Content type -/

theorem beginsWith_iff (n l : List Char) :
    beginsWith n l = true ↔ ∃ after, l = n ++ after := by
  induction n generalizing l with
  | nil => simp [beginsWith]
  | cons a as ih =>
    cases l with
    | nil => simp [beginsWith]
    | cons b bs =>
      simp only [beginsWith, Bool.and_eq_true, beq_iff_eq, ih, List.cons_append,
        List.cons.injEq]
      constructor
      · rintro ⟨rfl, after, rfl⟩
        exact ⟨after, rfl, rfl⟩
      · rintro ⟨after, rfl, rfl⟩
        exact ⟨rfl, after, rfl⟩

theorem occursIn_iff (n l : List Char) :
    occursIn n l = true ↔ ∃ before after, l = before ++ n ++ after := by
  induction l with
  | nil =>
    simp only [occursIn, List.isEmpty_iff]
    constructor
    · rintro rfl
      exact ⟨[], [], rfl⟩
    · rintro ⟨before, after, h⟩
      have := congrArg List.length h
      simp only [List.length_nil, List.length_append] at this
      exact List.length_eq_zero.1 (by omega)
  | cons c cs ih =>
    simp only [occursIn, Bool.or_eq_true, beginsWith_iff, ih]
    constructor
    · rintro (⟨after, h⟩ | ⟨before, after, h⟩)
      · exact ⟨[], after, by simpa using h⟩
      · exact ⟨c :: before, after, by simp [h]⟩
    · rintro ⟨before, after, h⟩
      cases before with
      | nil => exact Or.inl ⟨after, by simpa using h⟩
      | cons b bs =>
        simp only [List.cons_append, List.cons.injEq] at h
        exact Or.inr ⟨bs, after, h.2⟩

theorem json_of_string (response : Response) (s : String)
    (hl : lookupProp "content-type" response.headers = some (.str s)) (he : s ≠ "") :
    assertJsonResponse response
        = (if occursIn "application/json".toList s.toList then .ok ()
           else .error (.error ("Expected JSON response, but got content-type: " ++ s))) ∧
      (toBeValidJson response).map MatcherResult.passing
        = .ok (occursIn "application/json".toList s.toList) := by
  have hf : (JsVal.str s).falsy = false := by simp [JsVal.falsy, he]
  simp only [assertJsonResponse, toBeValidJson, itemOf, hl, Option.getD_some, hf, includes,
    Bool.false_eq_true, if_false]
  cases occursIn "application/json".toList s.toList <;>
    simp [JsVal.toStr, template_two, MatcherResult.passing, Except.map, JsVal.falsy]

theorem json_of_falsy (response : Response)
    (hf : (itemOf "content-type" response.headers).falsy = true) (value : String)
    (hv : (itemOf "content-type" response.headers).toStr = some value) :
    assertJsonResponse response
        = .error (.error ("Expected JSON response, but got content-type: " ++ value)) ∧
      (toBeValidJson response).map MatcherResult.passing = .ok false := by
  simp [assertJsonResponse, toBeValidJson, hf, hv, template_two, MatcherResult.passing,
    Except.map]

theorem not_containsSubstring_empty : ¬ containsSubstring "application/json" "" := by
  rintro ⟨before, after, h⟩
  have := congrArg List.length h
  simp at this
  omega

/-- C12: for a response whose content-type header, when present, is a string,
`assertJsonResponse` returns normally, and `toBeValidJson` reports a passing result,
exactly when the header is present and contains `application/json` as a substring; in
every other case, the absent header included, `assertJsonResponse` fails with
`Expected JSON response, but got content-type: {value}` and the matcher reports a
result that is not passing. -/
theorem assertJsonResponse_spec (response : Response)
    (hstr : ∀ v, lookupProp "content-type" response.headers = some v → ∃ s, v = .str s) :
    (assertJsonResponse response = .ok () ↔ jsonContentType response) ∧
      ((toBeValidJson response).map MatcherResult.passing = .ok true ↔
        jsonContentType response) ∧
      (¬ jsonContentType response →
        (∃ value, (itemOf "content-type" response.headers).toStr = some value ∧
          assertJsonResponse response
            = .error (.error ("Expected JSON response, but got content-type: " ++ value))) ∧
        (toBeValidJson response).map MatcherResult.passing = .ok false) := by
  cases hl : lookupProp "content-type" response.headers with
  | none =>
    have hn : ¬ jsonContentType response := by
      rintro ⟨s, hs, _⟩
      simp [hl] at hs
    have hi : itemOf "content-type" response.headers = .undefined := by simp [itemOf, hl]
    obtain ⟨h1, h2⟩ := json_of_falsy response (by simp [hi, JsVal.falsy]) "undefined"
      (by simp [hi, JsVal.toStr])
    exact ⟨by simp [h1, hn], by simp [h2, hn],
      fun _ => ⟨⟨"undefined", by simp [hi, JsVal.toStr], h1⟩, h2⟩⟩
  | some v =>
    obtain ⟨s, rfl⟩ := hstr v hl
    have hi : itemOf "content-type" response.headers = .str s := by simp [itemOf, hl]
    have hj : jsonContentType response ↔ containsSubstring "application/json" s := by
      constructor
      · rintro ⟨t, ht, hc⟩
        rw [hl] at ht
        simp only [Option.some.injEq, JsVal.str.injEq] at ht
        exact ht ▸ hc
      · intro hc
        exact ⟨s, hl, hc⟩
    by_cases he : s = ""
    · subst he
      have hn : ¬ jsonContentType response := fun h => not_containsSubstring_empty (hj.1 h)
      obtain ⟨h1, h2⟩ := json_of_falsy response (by simp [hi, JsVal.falsy]) ""
        (by simp [hi, JsVal.toStr])
      exact ⟨by simp [h1, hn], by simp [h2, hn],
        fun _ => ⟨⟨"", by simp [hi, JsVal.toStr], h1⟩, h2⟩⟩
    · obtain ⟨h1, h2⟩ := json_of_string response s hl he
      have hoc : occursIn "application/json".toList s.toList = true ↔
          containsSubstring "application/json" s := occursIn_iff _ _
      cases ho : occursIn "application/json".toList s.toList with
      | true =>
        have hc : jsonContentType response := hj.2 (hoc.1 ho)
        rw [ho] at h1 h2
        exact ⟨by simp [h1, hc], by simp [h2, hc], fun hn => absurd hc hn⟩
      | false =>
        have hc : ¬ jsonContentType response := by
          intro h
          have := hoc.2 (hj.1 h)
          rw [ho] at this
          exact Bool.noConfusion this
        rw [ho] at h1 h2
        exact ⟨by simp [h1, hc], by simp [h2, hc],
          fun _ => ⟨⟨s, by simp [hi, JsVal.toStr], by simpa using h1⟩, h2⟩⟩

/-- C12, at the header `application/json; charset=utf-8`. -/
theorem assertJsonResponse_spec_witness :
    jsonContentType
        ⟨.num 200, [("content-type", .str "application/json; charset=utf-8")], .null,
          .undefined⟩ ∧
      assertJsonResponse
        ⟨.num 200, [("content-type", .str "application/json; charset=utf-8")], .null,
          .undefined⟩ = .ok () :=
  have hj : jsonContentType
      ⟨.num 200, [("content-type", .str "application/json; charset=utf-8")], .null,
        .undefined⟩ :=
    ⟨"application/json; charset=utf-8", rfl, [], "; charset=utf-8".toList, rfl⟩
  ⟨hj, (assertJsonResponse_spec
      ⟨.num 200, [("content-type", .str "application/json; charset=utf-8")], .null, .undefined⟩
      (by
        intro v hv
        exact ⟨"application/json; charset=utf-8", (Option.some.inj hv).symm⟩)).1.2 hj⟩

end ApiHarness

namespace ApiHarness
open JsVal ApiAssertions Matchers

/-! ## Response time -/

/-- C13: for a response whose request configuration is present (neither `undefined`
nor `null`) and which carries no timing signal (the `x-response-time` header is absent
or falsy, and so is `responseTime` in the configuration's metadata, the metadata
itself being allowed to be absent), the elapsed time is taken as `0` and the call
returns normally for every bound `maxTime ≥ 0`. -/
theorem assertResponseTime_no_signal (response : Response) (maxTime : Int)
    (hm : 0 ≤ maxTime)
    (hu : response.config ≠ .undefined) (hn : response.config ≠ .null)
    (hh : (itemOf "x-response-time" response.headers).falsy = true)
    (hr : (optionalMember (response.config.getProp "metadata") "responseTime").falsy = true) :
    assertResponseTime.responseTime response = .ok (.num 0) ∧
      assertResponseTime response (.num maxTime) = .ok () := by
  have hc : member response.config "metadata"
      = .ok (response.config.getProp "metadata") := by
    cases hcfg : response.config <;> simp_all [member]
  have ht : assertResponseTime.responseTime response = .ok (.num 0) := by
    simp [assertResponseTime.responseTime, hh, hc, orElse, hr]
  have hq : (0 : ℚ) ≤ (maxTime : ℚ) := by exact_mod_cast hm
  refine ⟨ht, ?_⟩
  simp [assertResponseTime, ht, greaterThan, toPrimitive, stringUnits, toNumber,
    Float64.nearest_zero, Float64.lt_nearest_zero _ hq]

/-- C13, at a response with an empty request configuration and no header, checked
against the bound 100. -/
theorem assertResponseTime_no_signal_witness :
    assertResponseTime.responseTime ⟨.num 200, [], .null, .obj 1 []⟩ = .ok (.num 0) ∧
      assertResponseTime ⟨.num 200, [], .null, .obj 1 []⟩ (.num 100) = .ok () :=
  assertResponseTime_no_signal ⟨.num 200, [], .null, .obj 1 []⟩ 100 (by decide)
    (by simp) (by simp) rfl rfl

/-- C13 (the claim as worded, at a response without its request configuration): with
no `x-response-time` header and `response.config` absent, the bound 100 is not met by
a time taken as `0`; reading `response.config.metadata` throws a `TypeError`, which is
not the failure `Response time {t}ms exceeded maximum {max}ms` either. -/
theorem assertResponseTime_absent_config :
    itemOf "x-response-time" ([] : Props) = .undefined ∧
      assertResponseTime.responseTime ⟨.num 200, [], .null, .undefined⟩
        = .error .typeError ∧
      assertResponseTime ⟨.num 200, [], .null, .undefined⟩ (.num 100) = .error .typeError :=
  ⟨rfl, rfl, rfl⟩

/-- A numeral with a fraction in the header is compared by its value: `150.5` exceeds
the bound 100 and the failure carries both. -/
theorem assertResponseTime_fraction_header :
    assertResponseTime ⟨.num 200, [("x-response-time", .str "150.5")], .null, .obj 1 []⟩
        (.num 100)
      = .error (.error "Response time 150.5ms exceeded maximum 100ms") := by
  have hs : stringToNumber "150.5" = Float64.nearest ((1505 : ℚ) * 10 ^ ((0 : Int) - 1)) := by
    rfl
  have hv : (1505 : ℚ) * 10 ^ ((0 : Int) - 1) = 301 / 2 := by norm_num
  have h1 : Float64.nearest (301 / 2) = .fin (301 / 2) :=
    Float64.nearest_of_scaled _ 7 5295247999369216 (by norm_num) (by norm_num) (by norm_num)
      (by norm_num) (by norm_num) (by norm_num)
  have h2 : Float64.nearest ((100 : Int) : ℚ) = .fin ((100 : Int) : ℚ) :=
    Float64.nearest_intCast 100 (by decide)
  have hg : greaterThan (.str "150.5") (.num 100) = .ok true := by
    simp only [greaterThan, toPrimitive, stringUnits, toNumber]
    rw [hs, hv, h1, h2]
    simp only [Float64.lt]
    norm_num
  have ht : assertResponseTime.responseTime
      ⟨.num 200, [("x-response-time", .str "150.5")], .null, .obj 1 []⟩
        = .ok (.str "150.5") := rfl
  simp only [assertResponseTime, ht, hg]
  rfl

/-! ## The scalar generators -/

/-- The span `max - min + 1` of two safe integers is computed exactly when it is
itself within the safe range. -/
theorem generateRandomNumber_span (min max : Int) (hmm : min ≤ max)
    (hspan : max - min + 1 < 2 ^ 53) :
    Float64.add (Float64.sub (.fin max) (.fin min)) (.fin 1)
      = .fin ((max - min + 1 : Int) : ℚ) := by
  have h1 : Float64.sub (.fin max) (.fin min) = .fin ((max - min : Int) : ℚ) := by
    have e : (max : ℚ) + -(min : ℚ) = ((max - min : Int) : ℚ) := by
      push_cast
      ring
    simp only [Float64.sub, Float64.neg, Float64.add]
    rw [e]
    exact Float64.nearest_intCast _ (by rw [abs_lt]; constructor <;> omega)
  have e2 : ((max - min : Int) : ℚ) + 1 = ((max - min + 1 : Int) : ℚ) := by
    push_cast
    ring
  rw [h1]
  simp only [Float64.add]
  rw [e2]
  exact Float64.nearest_intCast _ (by rw [abs_lt]; constructor <;> omega)

/-- The value of `generateRandomNumber` at a positive draw that is at most
`1 - 2^-53`: an integer from `min + K` to `max`, for every integer `K ≥ 0` below the
exact product of the draw and the span. -/
theorem generateRandomNumber_eval (random : ℚ) (min max K : Int) (hmm : min ≤ max)
    (hmin : |min| < 2 ^ 53) (hmax : |max| < 2 ^ 53) (hspan : max - min + 1 < 2 ^ 53)
    (hpos : 0 < random) (hle : random ≤ 1 - 1 / 2 ^ 53) (hK0 : 0 ≤ K)
    (hK : (K : ℚ) ≤ random * ((max - min + 1 : Int) : ℚ)) :
    ∃ n : Int, TestDataFactory.generateRandomNumber (.fin random) (.fin min) (.fin max)
        = .fin n ∧ min + K ≤ n ∧ n ≤ max := by
  have hN : (0 : ℚ) < ((max - min + 1 : Int) : ℚ) := by
    have : (0 : Int) < max - min + 1 := by omega
    exact_mod_cast this
  have hx : 0 < random * ((max - min + 1 : Int) : ℚ) := mul_pos hpos hN
  have hxN : random * ((max - min + 1 : Int) : ℚ)
      ≤ ((max - min + 1 : Int) : ℚ) * (1 - 1 / 2 ^ 53) := by
    rw [mul_comm]
    exact mul_le_mul_of_nonneg_left hle hN.le
  obtain ⟨v, hv, hKv, hvN⟩ := Float64.nearest_bounds _ K (max - min + 1) hx hK hxN (by omega)
  have hf1 : K ≤ ⌊v⌋ := Int.le_floor.2 hKv
  have hf2 : ⌊v⌋ < max - min + 1 := Int.floor_lt.2 hvN
  have hmin2 := abs_lt.1 hmin
  have hmax2 := abs_lt.1 hmax
  refine ⟨⌊v⌋ + min, ?_, by omega, by omega⟩
  have e : ((⌊v⌋ : Int) : ℚ) + (min : ℚ) = ((⌊v⌋ + min : Int) : ℚ) := by
    push_cast
    ring
  simp only [TestDataFactory.generateRandomNumber]
  rw [generateRandomNumber_span min max hmm hspan]
  simp only [Float64.mul]
  rw [hv]
  simp only [Float64.floor, Float64.add]
  rw [e]
  exact Float64.nearest_intCast _ (by rw [abs_lt]; constructor <;> omega)

/-- C14: for integers `min ≤ max` such that `min`, `max` and `max - min + 1` are of
magnitude below `2^53`, and a draw `random` that is a binary64 value with
`0 ≤ random < 1`, the value of `Math.floor(random * (max - min + 1)) + min`, computed
in binary64 arithmetic, is an integer `n` with `min ≤ n ≤ max`; the draw `0` gives
`min`, and the draw `1 - 2^-53`, the largest binary64 value below `1`, gives `max`. -/
theorem generateRandomNumber_range (random : ℚ) (min max : Int) (hmm : min ≤ max)
    (hmin : |min| < 2 ^ 53) (hmax : |max| < 2 ^ 53) (hspan : max - min + 1 < 2 ^ 53)
    (hd : Float64.nearest random = .fin random) (h0 : 0 ≤ random) (h1 : random < 1) :
    (∃ n : Int, TestDataFactory.generateRandomNumber (.fin random) (.fin min) (.fin max)
        = .fin n ∧ min ≤ n ∧ n ≤ max) ∧
      TestDataFactory.generateRandomNumber (.fin 0) (.fin min) (.fin max) = .fin min ∧
      Float64.nearest (1 - 1 / 2 ^ 53) = .fin (1 - 1 / 2 ^ 53) ∧
      TestDataFactory.generateRandomNumber (.fin (1 - 1 / 2 ^ 53)) (.fin min) (.fin max)
        = .fin max := by
  have hzero : TestDataFactory.generateRandomNumber (.fin 0) (.fin min) (.fin max)
      = .fin min := by
    simp only [TestDataFactory.generateRandomNumber]
    rw [generateRandomNumber_span min max hmm hspan]
    simp only [Float64.mul, zero_mul, Float64.nearest_zero, Float64.floor, Int.floor_zero,
      Int.cast_zero, Float64.add, zero_add]
    exact Float64.nearest_intCast _ hmin
  refine ⟨?_, hzero, Float64.nearest_pred_one, ?_⟩
  · rcases h0.eq_or_lt with hz | hpos
    · rw [← hz]
      exact ⟨min, hzero, le_refl _, hmm⟩
    · obtain ⟨n, hn, hlo, hhi⟩ := generateRandomNumber_eval random min max 0 hmm hmin hmax
        hspan hpos (Float64.le_of_nearest_lt_one random hd h0 h1) (le_refl _)
        (by
          have hN : (0 : ℚ) ≤ ((max - min + 1 : Int) : ℚ) := by
            have : (0 : Int) ≤ max - min + 1 := by omega
            exact_mod_cast this
          simpa using mul_nonneg h0 hN)
      exact ⟨n, hn, by omega, hhi⟩
  · have hN : (0 : ℚ) < ((max - min + 1 : Int) : ℚ) := by
      have : (0 : Int) < max - min + 1 := by omega
      exact_mod_cast this
    have hN53 : ((max - min + 1 : Int) : ℚ) ≤ 2 ^ 53 := by
      have : max - min + 1 ≤ 2 ^ 53 := by omega
      exact_mod_cast this
    obtain ⟨n, hn, hlo, hhi⟩ := generateRandomNumber_eval (1 - 1 / 2 ^ 53) min max
      (max - min) hmm hmin hmax hspan (by norm_num) (le_refl _) (by omega)
      (by
        have e : ((max - min : Int) : ℚ) = ((max - min + 1 : Int) : ℚ) - 1 := by
          push_cast
          ring
        rw [e]
        have h53 : (0 : ℚ) < 2 ^ 53 := by positivity
        have : ((max - min + 1 : Int) : ℚ) * (1 / 2 ^ 53) ≤ 1 := by
          rw [mul_one_div, div_le_one h53]
          exact hN53
        linarith)
    have hnm : n = max := by omega
    rw [hn, hnm]

/-- The double nearest to `0.7`. -/
theorem nearest_seven_tenths :
    Float64.nearest (3152519739159347 / 4503599627370496)
      = .fin (3152519739159347 / 4503599627370496) :=
  Float64.nearest_of_scaled _ (-1) 6305039478318694 (by norm_num) (by norm_num) (by norm_num)
    (by norm_num) (by norm_num) (by norm_num)

/-- At `min = 1`, `max = 10` and the draw `0.7` the product `0.7 * 10` rounds to `7`
(the exact product `6.99999999999999955…` is halfway between two binary64 values and
goes to the even one), so the call returns `8`. -/
theorem generateRandomNumber_seven_tenths :
    TestDataFactory.generateRandomNumber (.fin (3152519739159347 / 4503599627370496))
        (.fin ((1 : Int) : ℚ)) (.fin ((10 : Int) : ℚ)) = .fin 8 := by
  have hspan := generateRandomNumber_span 1 10 (by decide) (by decide)
  have hf : ⌊(15762598695796735 / 2 : ℚ)⌋ = 7881299347898367 := by
    rw [Int.floor_eq_iff]
    constructor <;> norm_num
  have hr : Float64.roundHalfEven (15762598695796735 / 2) = 7881299347898368 := by
    unfold Float64.roundHalfEven
    rw [hf]
    norm_num
  have hx : (3152519739159347 / 4503599627370496 : ℚ) * (((10 - 1 + 1 : Int)) : ℚ)
      = 15762598695796735 / 2251799813685248 := by norm_num
  have hm : Float64.nearest (15762598695796735 / 2251799813685248) = .fin 7 := by
    have h := Float64.nearest_of_round (15762598695796735 / 2251799813685248) 2
      7881299347898368 (by norm_num) (by norm_num) (by norm_num) (by norm_num)
      (by
        have e : (15762598695796735 / 2251799813685248 : ℚ) / 2 ^ ((2 : Int) - 52)
            = 15762598695796735 / 2 := by norm_num
        rw [e]
        exact hr)
      (by
        have e : ((7881299347898368 : Int) : ℚ) * 2 ^ ((2 : Int) - 52) = 7 := by norm_num
        rw [e]
        have h1 : (1 : ℚ) ≤ 2 ^ (1024 : Int) := by norm_num
        have h7 : |(7 : ℚ)| = 7 := abs_of_pos (by norm_num)
        rw [h7]
        have h8 : (7 : ℚ) < 2 ^ (3 : Int) := by norm_num
        exact lt_of_lt_of_le h8 (zpow_le_zpow_right₀ (by norm_num) (by norm_num)))
    have e : ((7881299347898368 : Int) : ℚ) * 2 ^ ((2 : Int) - 52) = 7 := by norm_num
    rw [h, e]
  have h8 : Float64.nearest (((8 : Int) : ℚ)) = .fin ((8 : Int) : ℚ) :=
    Float64.nearest_intCast 8 (by decide)
  unfold TestDataFactory.generateRandomNumber
  rw [hspan]
  simp only [Float64.mul]
  rw [hx, hm]
  have hfl : ⌊(7 : ℚ)⌋ = 7 := by
    rw [Int.floor_eq_iff]
    constructor <;> norm_num
  simp only [Float64.floor, Float64.add, hfl]
  have e8 : ((7 : Int) : ℚ) + ((1 : Int) : ℚ) = ((8 : Int) : ℚ) := by norm_num
  rw [e8, h8]
  norm_num

/-- C14, at `min = 1`, `max = 10` and the draw `0.7` (the binary64 value nearest to
seven tenths): the value is an integer from 1 to 10, the draw `0` gives 1 and the
draw `1 - 2^-53` gives 10. -/
theorem generateRandomNumber_range_witness :
    Float64.nearest (3152519739159347 / 4503599627370496)
        = .fin (3152519739159347 / 4503599627370496) ∧
      (∃ n : Int, TestDataFactory.generateRandomNumber
          (.fin (3152519739159347 / 4503599627370496)) (.fin ((1 : Int) : ℚ))
          (.fin ((10 : Int) : ℚ)) = .fin n ∧ 1 ≤ n ∧ n ≤ 10) ∧
      TestDataFactory.generateRandomNumber (.fin 0) (.fin ((1 : Int) : ℚ))
          (.fin ((10 : Int) : ℚ)) = .fin ((1 : Int) : ℚ) ∧
      TestDataFactory.generateRandomNumber (.fin (1 - 1 / 2 ^ 53)) (.fin ((1 : Int) : ℚ))
          (.fin ((10 : Int) : ℚ)) = .fin ((10 : Int) : ℚ) :=
  have h := generateRandomNumber_range (3152519739159347 / 4503599627370496) 1 10
    (by decide) (by decide) (by decide) (by decide) nearest_seven_tenths
    (by norm_num) (by norm_num)
  ⟨nearest_seven_tenths, h.1, h.2.1, h.2.2.2⟩

/-- C14 (the claim as worded, at integers beyond the safe range): for the integers
`min = -2^1023` and `max = 2^1023` the difference `max - min` is beyond the largest
binary64 value, and the call returns `Infinity` at the draw `1/2` and not-a-number at
the draw `0`, neither an integer between `min` and `max`. -/
theorem generateRandomNumber_overflow :
    TestDataFactory.generateRandomNumber (.fin (1 / 2))
        (.fin (-((2 : ℚ) ^ (1023 : Int)))) (.fin ((2 : ℚ) ^ (1023 : Int))) = .inf false ∧
      TestDataFactory.generateRandomNumber (.fin 0)
        (.fin (-((2 : ℚ) ^ (1023 : Int)))) (.fin ((2 : ℚ) ^ (1023 : Int))) = .nan := by
  have e : (2 : ℚ) ^ (1023 : Int) + -(-((2 : ℚ) ^ (1023 : Int))) = 2 ^ (1024 : Int) := by
    have h : (1024 : Int) = 1023 + 1 := by decide
    rw [neg_neg, h, zpow_add₀ two_ne_zero, zpow_one, mul_two]
  have hs : Float64.add (Float64.sub (.fin ((2 : ℚ) ^ (1023 : Int)))
      (.fin (-((2 : ℚ) ^ (1023 : Int))))) (.fin 1) = .inf false := by
    rw [Float64.sub_fin, e, Float64.nearest_overflow, Float64.add_inf_fin]
  have h2 : ¬ ((1 : ℚ) / 2 = 0) := by norm_num
  have h3 : ¬ ((1 : ℚ) / 2 < 0) := by norm_num
  constructor
  · unfold TestDataFactory.generateRandomNumber
    rw [hs, Float64.mul_fin_inf, if_neg h2, Float64.floor_inf, Float64.add_inf_fin]
    simp [h3]
  · unfold TestDataFactory.generateRandomNumber
    rw [hs, Float64.mul_fin_inf, if_pos rfl, Float64.floor_nan, Float64.add_nan]

/-- The string returned has at most `length` characters, each a character of the
numeral after its first two. -/
theorem generateRandomString_length (numeral : String) (length : Nat) :
    (TestDataFactory.generateRandomString numeral length).length
        = Nat.min length (numeral.length - 2) ∧
      ∀ c ∈ (TestDataFactory.generateRandomString numeral length).toList,
        c ∈ numeral.toList.drop 2 := by
  refine ⟨?_, ?_⟩
  · show ((numeral.data.drop 2).take length).length = Nat.min length (numeral.data.length - 2)
    rw [List.length_take, List.length_drop]
  · intro c hc
    simp only [TestDataFactory.generateRandomString] at hc
    exact List.mem_of_mem_take hc

/-- C15 (the code at the failing input): the draw `0.5` prints in base 36 as `0.i`, and
for the requested length 10 the string returned is `i`, one character long; the draw
`0` prints as `0` and gives the empty string. -/
theorem generateRandomString_short :
    TestDataFactory.generateRandomString "0.i" 10 = "i" ∧
      (TestDataFactory.generateRandomString "0.i" 10).length = 1 ∧
      TestDataFactory.generateRandomString "0" 10 = "" :=
  ⟨rfl, rfl, rfl⟩

end ApiHarness

namespace ApiHarness
open JsVal ApiAssertions Matchers

/-! ## Traversal through values that are not mappings -/

theorem ownWalk_append (data : JsVal) (before rest : List String) :
    ownWalk data (before ++ rest)
      = match ownWalk data before with
        | some v => ownWalk v rest
        | none => none := by
  induction before generalizing data with
  | nil => simp [ownWalk]
  | cons k ks ih =>
    by_cases h : (!data.falsy && data.ownProperty k) = true
    · simp only [List.cons_append, ownWalk, h, if_true]
      exact ih _
    · simp [ownWalk, h]

theorem ownWalk_ownsNothing (v : JsVal) (k : String) (rest : List String)
    (h : ownsNothing v = true) : ownWalk v (k :: rest) = none := by
  cases v <;> simp_all [ownsNothing, ownWalk, JsVal.falsy, JsVal.ownProperty]

/-- C16 as stated fails: on `{name: "abc"}` the segment `name` resolves to a string
while `length` remains, and on `{items: [1]}` the segment `items` resolves to a
sequence while `0` remains, yet `assertPropertyExists` returns normally on both, and
`assertPropertyValue` returns normally or fails with the value message, not with the
path-absent one. -/
theorem assertPropertyExists_through_string :
    assertPropertyExists (.obj 0 [("name", .str "abc")]) "name.length" = .ok () ∧
      assertPropertyExists (.obj 0 [("items", .arr 1 [.num 1])]) "items.0" = .ok () ∧
      assertPropertyValue (.obj 0 [("items", .arr 1 [.num 1])]) "items.0" (.num 1) = .ok () ∧
      assertPropertyValue (.obj 0 [("name", .str "abc")]) "name.length" (.num 4)
        = .error (.error "Expected name.length to be 4, but got 3") :=
  ⟨rfl, rfl, rfl, rfl⟩

/-- C16 (amended): when some segment of the path resolves to `undefined`, `null`, a
boolean, a number or the empty string while further segments remain, and no object
met on the way hides `hasOwnProperty`, `assertPropertyExists` fails and
`assertPropertyValue` fails with the path-absent message; a non-empty string and a
sequence own `length` and their indices, so `name.length` on `{name: "abc"}` and
`items.0` on `{items: [1]}` resolve. -/
theorem path_through_scalar_absent (data expected : JsVal) (p : String)
    (before rest : List String) (k : String) (v : JsVal)
    (hsplit : splitPath p = before ++ k :: rest)
    (hwalk : ownWalk data before = some v) (hleaf : ownsNothing v = true)
    (hs : unshadowed data (splitPath p) = true) :
    assertPropertyExists data p
        = .error (.error ("Property " ++ p ++ " does not exist in response")) ∧
      assertPropertyValue data p expected
        = .error (.error ("Property " ++ p ++ " does not exist in response")) ∧
      ownWalk (.obj 0 [("name", .str "abc")]) (splitPath "name.length") = some (.num 3) ∧
      ownWalk (.obj 0 [("items", .arr 1 [.num 1])]) (splitPath "items.0") = some (.num 1) := by
  have hnone : ownWalk data (splitPath p) = none := by
    rw [hsplit, ownWalk_append, hwalk]
    exact ownWalk_ownsNothing v k rest hleaf
  have h1 := assertPropertyExists_loop_eq p _ data hs
  have h2 := assertPropertyValue_loop_eq p _ data hs
  rw [hnone] at h1 h2
  exact ⟨by simp [assertPropertyExists, h1], by simp [assertPropertyValue, h2], rfl, rfl⟩

/-- C16 (amended), at `{count: 7}` and the path `count.value`. -/
theorem path_through_scalar_absent_witness :
    ownWalk (.obj 0 [("count", .num 7)]) ["count"] = some (.num 7) ∧
      assertPropertyExists (.obj 0 [("count", .num 7)]) "count.value"
        = .error (.error ("Property " ++ "count.value" ++ " does not exist in response")) :=
  ⟨rfl, (path_through_scalar_absent (.obj 0 [("count", .num 7)]) .null "count.value"
      ["count"] [] "value" (.num 7) rfl rfl rfl rfl).1⟩

/-! ## The matcher against the assertion -/

/-- The loop of the matcher and the loop of `assertPropertyExists` go the same way:
`pass = true` where the assertion reaches the end, `pass = false` where it raises its
error, and the same `TypeError` where the traversal itself throws. -/
theorem toHaveProperty_loop_assert (p : String) (segs : List String) (data : JsVal) :
    toHaveProperty.loop segs data =
      match assertPropertyExists.loop p segs data with
      | .ok _ => .ok true
      | .error (.error _) => .ok false
      | .error .typeError => .error .typeError := by
  induction segs generalizing data with
  | nil => simp [toHaveProperty.loop, assertPropertyExists.loop]
  | cons k ks ih =>
    by_cases hf : data.falsy = true
    · simp [toHaveProperty.loop, assertPropertyExists.loop, hf]
    · have hf' : data.falsy = false := by simpa using hf
      simp only [toHaveProperty.loop, assertPropertyExists.loop, hf', Bool.false_eq_true,
        if_false]
      cases hh : data.hasOwnProperty k with
      | error e =>
        have he : e = .typeError := by
          cases data <;> simp [JsVal.hasOwnProperty] at hh
          all_goals first
            | exact hh.symm
            | (split at hh <;> simp_all)
        subst he
        rfl
      | ok b =>
        cases b with
        | false => rfl
        | true => exact ih _

theorem hasOwnProperty_error (v : JsVal) (k : String) (e : Thrown)
    (h : v.hasOwnProperty k = .error e) : e = .typeError := by
  cases v <;> simp [JsVal.hasOwnProperty] at h
  all_goals first
    | exact h.symm
    | (split at h <;> simp_all)

theorem assertPropertyExists_loop_error (p : String) (segs : List String) (data : JsVal)
    (m : String) (h : assertPropertyExists.loop p segs data = .error (.error m)) :
    m = "Property " ++ p ++ " does not exist in response" := by
  induction segs generalizing data with
  | nil => simp [assertPropertyExists.loop] at h
  | cons k ks ih =>
    simp only [assertPropertyExists.loop] at h
    split at h
    · simpa using h.symm
    · split at h
      · rename_i e heq
        have he := hasOwnProperty_error data k e heq
        subst he
        simp at h
      · simpa using h.symm
      · exact ih _ h

/-- The two traversals agree outcome by outcome: the matcher reports `pass = true`
exactly when `assertPropertyExists` returns normally, `pass = false` exactly when
`assertPropertyExists` fails with `Property {path} does not exist in response`, and it
ends in a `TypeError`, reporting nothing, exactly when `assertPropertyExists` ends in
one. -/
theorem toHaveProperty_refines_assertPropertyExists (obj : JsVal) (p : String) :
    ((∃ r, toHaveProperty obj p = .ok r ∧ r.pass = .bool true) ↔
        assertPropertyExists obj p = .ok ()) ∧
      ((∃ r, toHaveProperty obj p = .ok r ∧ r.pass = .bool false) ↔
        assertPropertyExists obj p
          = .error (.error ("Property " ++ p ++ " does not exist in response"))) ∧
      (toHaveProperty obj p = .error .typeError ↔
        assertPropertyExists obj p = .error .typeError) := by
  have hl := toHaveProperty_loop_assert p (splitPath p) obj
  cases ha : assertPropertyExists.loop p (splitPath p) obj with
  | ok v =>
    rw [ha] at hl
    simp [toHaveProperty, assertPropertyExists, hl, ha]
  | error e =>
    cases e with
    | typeError =>
      rw [ha] at hl
      simp [toHaveProperty, assertPropertyExists, hl, ha]
    | error m =>
      have hm := assertPropertyExists_loop_error p _ obj m ha
      rw [ha] at hl
      simp [toHaveProperty, assertPropertyExists, hl, ha, hm]

/-- C17 (the code at the failing input): on `{hasOwnProperty: "x", name: "n"}` and the
path `name`, a key that is present (direct access gives `"n"`),
`assertPropertyExists` raises, a `TypeError` from calling the own property as the
method, and the matcher reports no `pass = false`, nor `pass = true`: it ends in
the same `TypeError`. -/
theorem toHaveProperty_hidden_method :
    nestedAccess (.obj 0 [("hasOwnProperty", .str "x"), ("name", .str "n")]) ["name"]
        = some (.str "n") ∧
      assertPropertyExists (.obj 0 [("hasOwnProperty", .str "x"), ("name", .str "n")]) "name"
        = .error .typeError ∧
      toHaveProperty (.obj 0 [("hasOwnProperty", .str "x"), ("name", .str "n")]) "name"
        = .error .typeError ∧
      ¬ ∃ r, toHaveProperty (.obj 0 [("hasOwnProperty", .str "x"), ("name", .str "n")])
        "name" = .ok r := by
  refine ⟨rfl, rfl, rfl, ?_⟩
  rintro ⟨r, h⟩
  have ht : toHaveProperty (.obj 0 [("hasOwnProperty", .str "x"), ("name", .str "n")])
      "name" = .error .typeError := rfl
  rw [ht] at h
  cases h

end ApiHarness

namespace ApiHarness
namespace Store
open Exec

/-! ## Repeating a call -/

theorem preserves_pure {α : Type} (a : α) : Preserves (Exec.pure a) :=
  fun _ => rfl

theorem preserves_throw {α : Type} (t : Thrown) : Preserves (Exec.throw t : Exec α) :=
  fun _ => rfl

theorem preserves_read {α : Type} (f : Heap → Except Thrown α) : Preserves (Exec.read f) :=
  fun _ => rfl

/-- Two computations in sequence leave the store alone when each of them does. -/
theorem preserves_bind {α β : Type} (m : Exec α) (f : α → Exec β) (hm : Preserves m)
    (hf : ∀ a, Preserves (f a)) : Preserves (Exec.bind m f) := by
  intro h
  have h1 := hm h
  simp only [Exec.bind]
  rcases hmh : m h with ⟨r, h2⟩
  rw [hmh] at h1
  simp only at h1
  subst h1
  cases r with
  | ok a => exact hf a _
  | error t => rfl

/-- The loop leaves the store as it found it, at whatever segment it ends. -/
theorem loop_preserves (p : String) (segs : List String) (current : Value) :
    Preserves (assertPropertyValue.loop p segs current) := by
  induction segs generalizing current with
  | nil => exact preserves_pure _
  | cons prop rest ih =>
    unfold assertPropertyValue.loop
    apply preserves_bind
    · split
      · exact preserves_pure _
      · exact preserves_bind _ _ (preserves_read _) (fun _ => preserves_pure _)
    · intro absent
      split
      · exact preserves_throw _
      · exact preserves_bind _ _ (preserves_read _) (fun next => ih next)

/-- The whole call leaves the store as it found it, whether it returns or throws. -/
theorem assertPropertyValue_preserves (data expected : Value) (p : String) :
    Preserves (assertPropertyValue data p expected) := by
  unfold assertPropertyValue
  apply preserves_bind
  · exact loop_preserves p _ data
  · intro current
    split
    · exact preserves_bind _ _ (preserves_read _) (fun _ => preserves_throw _)
    · exact preserves_pure _

/-- Addresses of cells without repetition are no more than the cells. -/
theorem seen_length_le (h : Heap) (seen : List Nat) (hn : seen.Nodup)
    (hb : ∀ a ∈ seen, a < h.length) : seen.length ≤ h.length := by
  have hsub : seen ⊆ List.range h.length := fun a ha => List.mem_range.2 (hb a ha)
  have := (List.subperm_of_subset hn hsub).length_le
  simpa using this

/-- The conversion does not depend on the fuel once there is a unit of it for every
cell whose join is not under way. -/
theorem toStrWith_fuel (h : Heap) (fuel : Nat) (seen : List Nat) (v : Value)
    (hn : seen.Nodup) (hb : ∀ a ∈ seen, a < h.length)
    (hf : h.length < fuel + seen.length) :
    toStrWith h (fuel + 1) seen v = toStrWith h fuel seen v := by
  induction fuel generalizing seen v with
  | zero =>
    have := seen_length_le h seen hn hb
    omega
  | succ fuel ih =>
    cases v with
    | ref a =>
      rw [toStrWith, toStrWith]
      cases hc : h.get? a with
      | none => rfl
      | some c =>
        cases c with
        | object ps => rfl
        | array items =>
          by_cases hs : seen.contains a = true
          · simp only [hs, if_true]
          · have hs2 : a ∉ seen := by simpa using hs
            have ha : a < h.length := by
              rcases Nat.lt_or_ge a h.length with hlt | hge
              · exact hlt
              · rw [List.get?_eq_none.2 hge] at hc
                cases hc
            simp only [hs, Bool.false_eq_true, if_false]
            congr 1
            apply List.map_congr_left
            intro x _
            cases x with
            | ref b =>
              exact ih (a :: seen) (.ref b) (List.nodup_cons.2 ⟨hs2, hn⟩)
                (by
                  intro c hcm
                  rcases List.mem_cons.1 hcm with rfl | hm
                  · exact ha
                  · exact hb c hm)
                (by simp only [List.length_cons]; omega)
            | undefined => rfl
            | null => rfl
            | bool b => simp [toStrWith]
            | num n => simp [toStrWith]
            | str s => simp [toStrWith]
            | surrogate u => simp [toStrWith]
    | undefined => simp [toStrWith]
    | null => simp [toStrWith]
    | bool b => simp [toStrWith]
    | num n => simp [toStrWith]
    | str s => simp [toStrWith]
    | surrogate u => simp [toStrWith]

/-- The fuel `toStr` hands out is enough: any larger amount gives the same string. -/
theorem toStr_fuel (h : Heap) (v : Value) (extra : Nat) :
    toStrWith h (h.length + 1 + extra) [] v = toStr h v := by
  induction extra with
  | zero => rfl
  | succ n ih =>
    rw [← ih]
    exact toStrWith_fuel h (h.length + 1 + n) [] v List.nodup_nil
      (fun a ha => absurd ha (List.not_mem_nil a)) (by simp only [List.length_nil]; omega)

/-- An assignment to a member shows in the store, and the outcome of a call depends on
the store it runs on: after `o.id = 2` on the object `{id: 1}` the store has changed,
and the call with the same arguments `(o, "id", 1)`, which returned normally before,
fails with the value message. -/
theorem assertPropertyValue_after_assign :
    (Exec.assign 0 "id" (.num 2) [.object [("id", .num 1)]]).2
        = [.object [("id", .num 2)]] ∧
      ¬ Preserves (Exec.assign 0 "id" (.num 2)) ∧
      (assertPropertyValue (.ref 0) "id" (.num 1) [.object [("id", .num 1)]]).1 = .ok () ∧
      (assertPropertyValue (.ref 0) "id" (.num 1)
          (Exec.assign 0 "id" (.num 2) [.object [("id", .num 1)]]).2).1
        = .error (.error "Expected id to be 1, but got 2") := by
  refine ⟨rfl, ?_, rfl, rfl⟩
  intro hp
  have h := hp [.object [("id", .num 1)]]
  exact absurd h (by decide)

/-- The computation over the store at the inputs met above: a nested path that
resolves, a missing key, the `length` of a string, an object hiding `hasOwnProperty`,
the message for an array against an object, and identity: the object found equals
the very object expected, not another one with the same contents. -/
theorem assertPropertyValue_on_store :
    (assertPropertyValue (.ref 2) "a.b.c" (.num 5)
        [.object [("c", .num 5)], .object [("b", .ref 0)], .object [("a", .ref 1)]]).1
        = .ok () ∧
      (assertPropertyValue (.ref 2) "a.x" (.num 5)
        [.object [("c", .num 5)], .object [("b", .ref 0)], .object [("a", .ref 1)]]).1
        = .error (.error "Property a.x does not exist in response") ∧
      (assertPropertyValue (.ref 0) "name.length" (.num 3) [.object [("name", .str "abc")]]).1
        = .ok () ∧
      (assertPropertyValue (.ref 0) "id" (.num 7)
        [.object [("hasOwnProperty", .bool true), ("id", .num 7)]]).1
        = .error .typeError ∧
      (assertPropertyValue (.ref 2) "a" (.ref 1)
        [.object [], .array [.num 1, .num 2], .object [("a", .ref 0)]]).1
        = .error (.error "Expected a to be 1,2, but got [object Object]") ∧
      (assertPropertyValue (.ref 2) "a" (.ref 0)
        [.object [], .object [], .object [("a", .ref 0)]]).1 = .ok () ∧
      (assertPropertyValue (.ref 2) "a" (.ref 1)
        [.object [], .object [], .object [("a", .ref 0)]]).1
        = .error (.error "Expected a to be [object Object], but got [object Object]") :=
  ⟨rfl, rfl, rfl, rfl, rfl, rfl, rfl⟩

/-- C18: a call of `assertPropertyValue(data, propertyPath, expectedValue)`, run on
any store holding the data, leaves that store as it found it, whether it returns or
throws; hence a second call with the same arguments, run on the store the first one
left, has the same outcome: both return normally, or both throw the same value, the
same message included. -/
theorem assertPropertyValue_idempotent (h : Heap) (data expected : Value) (p : String) :
    (assertPropertyValue data p expected h).2 = h ∧
      (assertPropertyValue data p expected (assertPropertyValue data p expected h).2).2
        = h ∧
      (((assertPropertyValue data p expected h).1 = .ok () ∧
          (assertPropertyValue data p expected (assertPropertyValue data p expected h).2).1
            = .ok ()) ∨
        ∃ thrown,
          (assertPropertyValue data p expected h).1 = .error thrown ∧
          (assertPropertyValue data p expected (assertPropertyValue data p expected h).2).1
            = .error thrown) := by
  have hp := assertPropertyValue_preserves data expected p h
  refine ⟨hp, ?_, ?_⟩
  · rw [hp, hp]
  · rw [hp]
    cases hr : (assertPropertyValue data p expected h).1 with
    | ok u => exact Or.inl ⟨rfl, rfl⟩
    | error t => exact Or.inr ⟨t, rfl, rfl⟩

end Store
end ApiHarness

namespace ApiHarness
namespace Store
open JsVal

/-! ## The store and the tree -/

/-- A tree that is a primitive. -/
theorem represents_primitive (h : Heap) (t : JsVal) (v : Value)
    (hp : t.isArray = false) (ho : ∀ r ps, t ≠ .obj r ps) (hr : represents h t v = true) :
    v = Value.ofJs t ∧ v.toJs = t := by
  cases t with
  | arr r items => simp [JsVal.isArray] at hp
  | obj r ps => exact absurd rfl (ho r ps)
  | undefined => simp [represents] at hr; subst hr; exact ⟨rfl, rfl⟩
  | null => simp [represents] at hr; subst hr; exact ⟨rfl, rfl⟩
  | bool b => simp [represents] at hr; subst hr; exact ⟨rfl, rfl⟩
  | num n => simp [represents] at hr; subst hr; exact ⟨rfl, rfl⟩
  | str s => simp [represents] at hr; subst hr; exact ⟨rfl, rfl⟩
  | surrogate u => simp [represents] at hr; subst hr; exact ⟨rfl, rfl⟩

/-- A primitive stands for itself. -/
theorem represents_ofJs (h : Heap) (t : JsVal)
    (hp : t.isArray = false) (ho : ∀ r ps, t ≠ .obj r ps) :
    represents h t (Value.ofJs t) = true := by
  cases t with
  | arr r items => simp [JsVal.isArray] at hp
  | obj r ps => exact absurd rfl (ho r ps)
  | undefined => simp [represents, Value.ofJs]
  | null => simp [represents, Value.ofJs]
  | bool b => simp [represents, Value.ofJs]
  | num n => simp [represents, Value.ofJs]
  | str s => simp [represents, Value.ofJs]
  | surrogate u => simp [represents, Value.ofJs]

theorem represents_arr (h : Heap) (r : Nat) (trees : List JsVal) (v : Value)
    (hr : represents h (.arr r trees) v = true) :
    v = .ref r ∧ ∃ items, h.get? r = some (.array items) ∧ representsAll h trees items = true := by
  cases v with
  | ref a =>
    simp only [represents, Bool.and_eq_true, beq_iff_eq] at hr
    obtain ⟨rfl, h2⟩ := hr
    refine ⟨rfl, ?_⟩
    cases hc : h[a]? with
    | none => simp [hc] at h2
    | some c =>
      cases c with
      | array items =>
        exact ⟨items, by rw [List.get?_eq_getElem?]; exact hc, by simpa [hc] using h2⟩
      | object props => simp [hc] at h2
  | undefined => simp [represents] at hr
  | null => simp [represents] at hr
  | bool b => simp [represents] at hr
  | num n => simp [represents] at hr
  | str s => simp [represents] at hr
  | surrogate u => simp [represents] at hr

theorem represents_obj (h : Heap) (r : Nat) (ps : List (String × JsVal)) (v : Value)
    (hr : represents h (.obj r ps) v = true) :
    v = .ref r ∧ ∃ props, h.get? r = some (.object props)
      ∧ representsProps h ps props = true := by
  cases v with
  | ref a =>
    simp only [represents, Bool.and_eq_true, beq_iff_eq] at hr
    obtain ⟨rfl, h2⟩ := hr
    refine ⟨rfl, ?_⟩
    cases hc : h[a]? with
    | none => simp [hc] at h2
    | some c =>
      cases c with
      | array items => simp [hc] at h2
      | object props =>
        exact ⟨props, by rw [List.get?_eq_getElem?]; exact hc, by simpa [hc] using h2⟩
  | undefined => simp [represents] at hr
  | null => simp [represents] at hr
  | bool b => simp [represents] at hr
  | num n => simp [represents] at hr
  | str s => simp [represents] at hr
  | surrogate u => simp [represents] at hr

theorem representsAll_length (h : Heap) (trees : List JsVal) (items : List Value)
    (hr : representsAll h trees items = true) : items.length = trees.length := by
  induction trees generalizing items with
  | nil =>
    cases items with
    | nil => rfl
    | cons v vs => simp [representsAll] at hr
  | cons t ts ih =>
    cases items with
    | nil => simp [representsAll] at hr
    | cons v vs =>
      simp only [representsAll, Bool.and_eq_true] at hr
      simp [ih vs hr.2]

theorem representsAll_getD (h : Heap) (trees : List JsVal) (items : List Value) (i : Nat)
    (hr : representsAll h trees items = true) :
    represents h (trees.getD i .undefined) (items.getD i .undefined) = true := by
  induction trees generalizing items i with
  | nil =>
    cases items with
    | nil => simp [represents]
    | cons v vs => simp [representsAll] at hr
  | cons t ts ih =>
    cases items with
    | nil => simp [representsAll] at hr
    | cons v vs =>
      simp only [representsAll, Bool.and_eq_true] at hr
      cases i with
      | zero => simpa using hr.1
      | succ j => simpa using ih vs j hr.2

theorem representsProps_keyIn (h : Heap) (ps : List (String × JsVal))
    (props : List (String × Value)) (k : String)
    (hr : representsProps h ps props = true) : keyIn k props = hasKey k ps := by
  induction ps generalizing props with
  | nil =>
    cases props with
    | nil => rfl
    | cons q qs => simp [representsProps] at hr
  | cons p ps ih =>
    cases props with
    | nil =>
      obtain ⟨k1, t⟩ := p
      simp [representsProps] at hr
    | cons q qs =>
      obtain ⟨k1, t⟩ := p
      obtain ⟨k2, v⟩ := q
      simp only [representsProps, Bool.and_eq_true, beq_iff_eq] at hr
      obtain ⟨⟨rfl, _⟩, h3⟩ := hr
      have := ih qs h3
      simp only [keyIn, hasKey, List.any_cons] at this ⊢
      rw [this]

theorem representsProps_lookup (h : Heap) (ps : List (String × JsVal))
    (props : List (String × Value)) (k : String)
    (hr : representsProps h ps props = true) :
    represents h ((lookupProp k ps).getD .undefined) ((valueAt k props).getD .undefined)
      = true := by
  induction ps generalizing props with
  | nil =>
    cases props with
    | nil => simp [lookupProp, valueAt, represents]
    | cons q qs => simp [representsProps] at hr
  | cons p ps ih =>
    cases props with
    | nil =>
      obtain ⟨k1, t⟩ := p
      simp [representsProps] at hr
    | cons q qs =>
      obtain ⟨k1, t⟩ := p
      obtain ⟨k2, v⟩ := q
      simp only [representsProps, Bool.and_eq_true, beq_iff_eq] at hr
      obtain ⟨⟨rfl, h2⟩, h3⟩ := hr
      by_cases hk : (k1 == k) = true
      · simpa [lookupProp, valueAt, hk] using h2
      · simpa [lookupProp, valueAt, hk] using ih qs h3

/-- The truth value of a variable is that of the tree it stands for. -/
theorem falsy_of_represents (h : Heap) (t : JsVal) (v : Value)
    (hr : represents h t v = true) : v.falsy = t.falsy := by
  cases t with
  | arr r trees =>
    obtain ⟨rfl, _⟩ := represents_arr h r trees v hr
    rfl
  | obj r ps =>
    obtain ⟨rfl, _⟩ := represents_obj h r ps v hr
    rfl
  | undefined => simp [represents] at hr; subst hr; rfl
  | null => simp [represents] at hr; subst hr; rfl
  | bool b => simp [represents] at hr; subst hr; rfl
  | num n => simp [represents] at hr; subst hr; rfl
  | str s => simp [represents] at hr; subst hr; rfl
  | surrogate u => simp [represents] at hr; subst hr; rfl

/-- The call `hasOwnProperty` against the store is the call on the tree. -/
theorem hasOwnProperty_of_represents (h : Heap) (t : JsVal) (v : Value) (k : String)
    (hr : represents h t v = true) : hasOwnProperty h v k = t.hasOwnProperty k := by
  cases t with
  | arr r trees =>
    obtain ⟨rfl, items, hc, hall⟩ := represents_arr h r trees v hr
    simp only [hasOwnProperty, hc, JsVal.hasOwnProperty, JsVal.ownProperty,
      representsAll_length h trees items hall]
  | obj r ps =>
    obtain ⟨rfl, props, hc, hall⟩ := represents_obj h r ps v hr
    simp only [hasOwnProperty, hc, JsVal.hasOwnProperty,
      representsProps_keyIn h ps props _ hall]
  | undefined => simp [represents] at hr; subst hr; rfl
  | null => simp [represents] at hr; subst hr; rfl
  | bool b => simp [represents] at hr; subst hr; rfl
  | num n => simp [represents] at hr; subst hr; rfl
  | str s => simp [represents] at hr; subst hr; rfl
  | surrogate u => simp [represents] at hr; subst hr; rfl

theorem ofUnit_primitive (u : Nat) :
    (JsVal.ofUnit u).isArray = false ∧ ∀ r ps, JsVal.ofUnit u ≠ .obj r ps := by
  unfold JsVal.ofUnit
  split_ifs <;> simp [JsVal.isArray]

/-- What a member read on a string yields is a primitive. -/
theorem getProp_text_primitive (t : JsVal) (k : String)
    (ht : (∃ s, t = .str s) ∨ ∃ u, t = .surrogate u) :
    (t.getProp k).isArray = false ∧ ∀ r ps, t.getProp k ≠ .obj r ps := by
  rcases ht with ⟨s, rfl⟩ | ⟨u, rfl⟩
  · by_cases hk : (k == "length") = true
    · simp [JsVal.getProp, hk, JsVal.isArray]
    · cases hi : indexOfName k (codeUnits s).length with
      | none => simp [JsVal.getProp, hk, hi, JsVal.isArray]
      | some i =>
        have hu := ofUnit_primitive ((codeUnits s).getD i 0)
        simpa [JsVal.getProp, hk, hi] using hu
  · by_cases hk : (k == "length") = true
    · simp [JsVal.getProp, hk, JsVal.isArray]
    · cases hi : indexOfName k 1 with
      | none => simp [JsVal.getProp, hk, hi, JsVal.isArray]
      | some i => simp [JsVal.getProp, hk, hi, JsVal.isArray]

/-- The member read against the store stands for the member read on the tree. -/
theorem getProp_of_represents (h : Heap) (t : JsVal) (v : Value) (k : String)
    (hr : represents h t v = true) : represents h (t.getProp k) (getProp h v k) = true := by
  cases t with
  | arr r trees =>
    obtain ⟨rfl, items, hc, hall⟩ := represents_arr h r trees v hr
    have hl := representsAll_length h trees items hall
    simp only [getProp, hc, JsVal.getProp, hl]
    split
    · simp [represents]
    · split
      · exact representsAll_getD h trees items _ hall
      · simp [represents]
  | obj r ps =>
    obtain ⟨rfl, props, hc, hall⟩ := represents_obj h r ps v hr
    simp only [getProp, hc, JsVal.getProp]
    exact representsProps_lookup h ps props k hall
  | undefined => simp [represents] at hr; subst hr; simp [getProp, Value.toJs, JsVal.getProp, Value.ofJs, represents]
  | null => simp [represents] at hr; subst hr; simp [getProp, Value.toJs, JsVal.getProp, Value.ofJs, represents]
  | bool b => simp [represents] at hr; subst hr; simp [getProp, Value.toJs, JsVal.getProp, Value.ofJs, represents]
  | num n => simp [represents] at hr; subst hr; simp [getProp, Value.toJs, JsVal.getProp, Value.ofJs, represents]
  | str s =>
    simp [represents] at hr
    subst hr
    simp only [getProp, Value.toJs]
    exact represents_ofJs h _ (getProp_text_primitive _ k (Or.inl ⟨s, rfl⟩)).1
      (getProp_text_primitive _ k (Or.inl ⟨s, rfl⟩)).2
  | surrogate u =>
    simp [represents] at hr
    subst hr
    simp only [getProp, Value.toJs]
    exact represents_ofJs h _ (getProp_text_primitive _ k (Or.inr ⟨u, rfl⟩)).1
      (getProp_text_primitive _ k (Or.inr ⟨u, rfl⟩)).2

/-- A value of the store that stands for a tree is the tree's own primitive, or the
reference whose address is the tree's tag. -/
theorem eq_ofJs_of_represents (h : Heap) (t : JsVal) (v : Value)
    (hr : represents h t v = true) : v = Value.ofJs t := by
  cases t with
  | arr r trees => exact (represents_arr h r trees v hr).1
  | obj r ps => exact (represents_obj h r ps v hr).1
  | undefined => simp [represents] at hr; subst hr; rfl
  | null => simp [represents] at hr; subst hr; rfl
  | bool b => simp [represents] at hr; subst hr; rfl
  | num n => simp [represents] at hr; subst hr; rfl
  | str s => simp [represents] at hr; subst hr; rfl
  | surrogate u => simp [represents] at hr; subst hr; rfl

/-- Strict equality of two variables is strict equality of the trees they stand for. -/
theorem strictEq_of_represents (h : Heap) (t u : JsVal) (v w : Value)
    (hv : represents h t v = true) (hw : represents h u w = true) :
    v.strictEq w = t.strictEq u := by
  have ev := eq_ofJs_of_represents h t v hv
  have ew := eq_ofJs_of_represents h u w hw
  subst ev
  subst ew
  cases t <;> cases u <;> try rfl
  · rename_i r trees q ps
    obtain ⟨_, items, hc, _⟩ := represents_arr h r trees _ hv
    obtain ⟨_, props, hd, _⟩ := represents_obj h q ps _ hw
    have hne : r ≠ q := by
      rintro rfl
      rw [hc] at hd
      cases hd
    simp [Value.ofJs, Value.strictEq, JsVal.strictEq, hne]
  · rename_i r ps q trees
    obtain ⟨_, props, hc, _⟩ := represents_obj h r ps _ hv
    obtain ⟨_, items, hd, _⟩ := represents_arr h q trees _ hw
    have hne : r ≠ q := by
      rintro rfl
      rw [hc] at hd
      cases hd
    simp [Value.ofJs, Value.strictEq, JsVal.strictEq, hne]

/-- The loop on the store and the loop on the tree end alike: with the same thrown
value, or with a variable that stands for the tree reached. -/
theorem loop_of_represents (h : Heap) (p : String) (segs : List String) (t : JsVal)
    (v : Value) (hr : represents h t v = true) :
    (∃ e, ApiAssertions.assertPropertyValue.loop p segs t = .error e
        ∧ (assertPropertyValue.loop p segs v h).1 = .error e) ∨
      (∃ t1 v1, ApiAssertions.assertPropertyValue.loop p segs t = .ok t1
        ∧ (assertPropertyValue.loop p segs v h).1 = .ok v1
        ∧ represents h t1 v1 = true) := by
  induction segs generalizing t v with
  | nil => exact Or.inr ⟨t, v, rfl, rfl, hr⟩
  | cons k ks ih =>
    have hf := falsy_of_represents h t v hr
    have ho := hasOwnProperty_of_represents h t v k hr
    have hg := getProp_of_represents h t v k hr
    by_cases hfal : t.falsy = true
    · refine Or.inl ⟨.error ("Property " ++ p ++ " does not exist in response"), ?_, ?_⟩
      · simp [ApiAssertions.assertPropertyValue.loop, hfal]
      · simp [assertPropertyValue.loop, hf, hfal, Exec.bind, Exec.pure, Exec.throw]
    · have hfal2 : t.falsy = false := by simpa using hfal
      cases hown : t.hasOwnProperty k with
      | error e =>
        refine Or.inl ⟨e, ?_, ?_⟩
        · simp [ApiAssertions.assertPropertyValue.loop, hfal2, hown]
        · simp [assertPropertyValue.loop, hf, hfal2, Exec.bind, Exec.pure, Exec.read, ho,
            hown]
      | ok b =>
        cases b with
        | false =>
          refine Or.inl ⟨.error ("Property " ++ p ++ " does not exist in response"), ?_, ?_⟩
          · simp [ApiAssertions.assertPropertyValue.loop, hfal2, hown]
          · simp [assertPropertyValue.loop, hf, hfal2, Exec.bind, Exec.pure, Exec.read,
              Exec.throw, ho, hown]
        | true =>
          rcases ih (t.getProp k) (getProp h v k) hg with ⟨e, h1, h2⟩ | ⟨t1, v1, h1, h2, h3⟩
          · refine Or.inl ⟨e, ?_, ?_⟩
            · simp [ApiAssertions.assertPropertyValue.loop, hfal2, hown, h1]
            · simp [assertPropertyValue.loop, hf, hfal2, Exec.bind, Exec.pure, Exec.read,
                ho, hown, h2]
          · refine Or.inr ⟨t1, v1, ?_, ?_, h3⟩
            · simp [ApiAssertions.assertPropertyValue.loop, hfal2, hown, h1]
            · simp [assertPropertyValue.loop, hf, hfal2, Exec.bind, Exec.pure, Exec.read,
                ho, hown, h2]

theorem refsBelow_of_orderedFrom (n : Nat) (h : Heap) (i : Nat) (c : Cell)
    (ho : orderedFrom n h = true) (hc : h.get? i = some c) : refsBelow (n + i) c = true := by
  induction h generalizing n i with
  | nil => simp at hc
  | cons d ds ih =>
    simp only [orderedFrom, Bool.and_eq_true] at ho
    cases i with
    | zero =>
      simp only [List.get?_cons_zero, Option.some.injEq] at hc
      subst hc
      simpa using ho.1
    | succ j =>
      simp only [List.get?_cons_succ] at hc
      have := ih (n + 1) j ho.2 hc
      have e : n + 1 + j = n + (j + 1) := by omega
      rwa [e] at this

/-- In an ordered store the cell at an address refers only to addresses below it. -/
theorem refsBelow_of_ordered (h : Heap) (a : Nat) (c : Cell)
    (ho : ordered h = true) (hc : h.get? a = some c) : refsBelow a c = true := by
  have := refsBelow_of_orderedFrom 0 h a c ho hc
  simpa using this

theorem refsBelow_array (a : Nat) (items : List Value)
    (hb : refsBelow a (.array items) = true) :
    ∀ x ∈ items, ∀ b, x = .ref b → b < a := by
  intro x hx b hxb
  subst hxb
  simp only [refsBelow, List.all_eq_true] at hb
  simpa using hb _ hx

theorem joinConverted_cons (x : Option String) (rest : List (Option String)) :
    joinConverted (x :: rest)
      = match x, joinConverted rest with
        | some a, some b => some (if rest.isEmpty then a else a ++ "," ++ b)
        | _, _ => none := rfl

/-- The join of the elements of an array of the store is the join of the trees they
stand for, once each element converts as its tree does. -/
theorem joinConverted_of_representsAll (h : Heap) (f : Value → Option String)
    (trees : List JsVal) (items : List Value) (hr : representsAll h trees items = true)
    (hf : ∀ t v, represents h t v = true → v ∈ items → f v = t.toStr) :
    joinConverted (items.map (fun x =>
        match x with
        | .undefined => some ""
        | .null => some ""
        | w => f w)) = JsVal.joinItems trees := by
  induction trees generalizing items with
  | nil =>
    cases items with
    | nil => rfl
    | cons x xs => simp [representsAll] at hr
  | cons t ts ih =>
    cases items with
    | nil => simp [representsAll] at hr
    | cons x xs =>
      simp only [representsAll, Bool.and_eq_true] at hr
      have ih2 := ih xs hr.2 (fun t1 v1 h1 hm => hf t1 v1 h1 (List.mem_cons_of_mem _ hm))
      have hl := representsAll_length h ts xs hr.2
      have hx := hf t x hr.1 (List.mem_cons_self _ _)
      have ex := eq_ofJs_of_represents h t x hr.1
      have hemp : (List.map (fun x =>
          match x with
          | .undefined => some ""
          | .null => some ""
          | w => f w) xs).isEmpty = ts.isEmpty := by
        cases ts <;> cases xs <;> simp_all
      rw [List.map_cons, joinConverted_cons, ih2, hemp]
      subst ex
      cases t with
      | undefined => rw [JsVal.joinItems]; rfl
      | null => rw [JsVal.joinItems]; rfl
      | bool b =>
        rw [JsVal.joinItems] <;>
          first
          | (intro hh; cases hh)
          | (simp only [Value.ofJs] at hx ⊢; rw [hx])
      | num k =>
        rw [JsVal.joinItems] <;>
          first
          | (intro hh; cases hh)
          | (simp only [Value.ofJs] at hx ⊢; rw [hx])
      | str s =>
        rw [JsVal.joinItems] <;>
          first
          | (intro hh; cases hh)
          | (simp only [Value.ofJs] at hx ⊢; rw [hx])
      | surrogate u =>
        rw [JsVal.joinItems] <;>
          first
          | (intro hh; cases hh)
          | (simp only [Value.ofJs] at hx ⊢; rw [hx])
      | arr r trees =>
        rw [JsVal.joinItems] <;>
          first
          | (intro hh; cases hh)
          | (simp only [Value.ofJs] at hx ⊢; rw [hx])
      | obj r ps =>
        rw [JsVal.joinItems] <;>
          first
          | (intro hh; cases hh)
          | (simp only [Value.ofJs] at hx ⊢; rw [hx])

/-- In an ordered store the string conversion of a variable is that of the tree it
stands for; `n` bounds the address of the variable from above and the arrays whose
join is under way from below. -/
theorem toStrWith_of_represents (h : Heap) (ho : ordered h = true) (n : Nat) :
    ∀ (t : JsVal) (v : Value) (fuel : Nat) (seen : List Nat),
      represents h t v = true → (∀ a, v = .ref a → a < n) → (∀ s ∈ seen, n ≤ s) →
      n ≤ fuel → toStrWith h fuel seen v = t.toStr := by
  induction n using Nat.strong_induction_on with
  | _ n ih =>
    intro t v fuel seen hr hv hs hf
    cases t with
    | undefined => simp [represents] at hr; subst hr; simp [toStrWith, Value.toJs]
    | null => simp [represents] at hr; subst hr; simp [toStrWith, Value.toJs]
    | bool b => simp [represents] at hr; subst hr; simp [toStrWith, Value.toJs]
    | num k => simp [represents] at hr; subst hr; simp [toStrWith, Value.toJs]
    | str s => simp [represents] at hr; subst hr; simp [toStrWith, Value.toJs]
    | surrogate u => simp [represents] at hr; subst hr; simp [toStrWith, Value.toJs]
    | obj r ps =>
      obtain ⟨rfl, props, hc, hall⟩ := represents_obj h r ps v hr
      have hlt := hv r rfl
      obtain ⟨g, rfl⟩ : ∃ g, fuel = g + 1 := ⟨fuel - 1, by omega⟩
      simp only [toStrWith, hc, JsVal.toStr, representsProps_keyIn h ps props _ hall]
    | arr r trees =>
      obtain ⟨rfl, items, hc, hall⟩ := represents_arr h r trees v hr
      have hlt := hv r rfl
      obtain ⟨g, rfl⟩ : ∃ g, fuel = g + 1 := ⟨fuel - 1, by omega⟩
      have hns : seen.contains r = false := by
        rw [Bool.eq_false_iff]
        intro hmem
        have := hs r (by simpa using hmem)
        omega
      have hb := refsBelow_array r items (refsBelow_of_ordered h r _ ho hc)
      simp only [toStrWith, hc, hns, Bool.false_eq_true, if_false, JsVal.toStr]
      exact joinConverted_of_representsAll h (toStrWith h g (r :: seen)) trees items hall
        (fun t1 v1 h1 hm => ih r hlt t1 v1 g (r :: seen) h1 (fun a ha => hb v1 hm a ha)
          (by
            intro s hmem
            rcases List.mem_cons.1 hmem with rfl | hm2
            · exact le_refl _
            · have := hs s hm2
              omega)
          (by omega))

/-- In an ordered store the conversion of a variable is that of the tree. -/
theorem toStr_of_represents (h : Heap) (ho : ordered h = true) (t : JsVal) (v : Value)
    (hr : represents h t v = true) : toStr h v = t.toStr := by
  apply toStrWith_of_represents h ho h.length t v (h.length + 1) [] hr
  · intro a ha
    subst ha
    have := eq_ofJs_of_represents h t (.ref a) hr
    cases t with
    | arr r trees =>
      obtain ⟨e, items, hc, _⟩ := represents_arr h r trees _ hr
      cases e
      by_contra hge
      rw [List.get?_eq_none.2 (by omega)] at hc
      cases hc
    | obj r ps =>
      obtain ⟨e, props, hc, _⟩ := represents_obj h r ps _ hr
      cases e
      by_contra hge
      rw [List.get?_eq_none.2 (by omega)] at hc
      cases hc
    | undefined => simp [represents] at hr
    | null => simp [represents] at hr
    | bool b => simp [represents] at hr
    | num k => simp [represents] at hr
    | str s => simp [represents] at hr
    | surrogate u => simp [represents] at hr
  · intro s hmem
    exact absurd hmem (List.not_mem_nil s)
  · omega

/-- The computation over the store is the assertion on the tree: on an ordered store
in which `data` and `expected` stand for the trees `d` and `e`, the call has the
outcome of `ApiAssertions.assertPropertyValue d p e`, the thrown value and its message
included. -/
theorem assertPropertyValue_of_represents (h : Heap) (ho : ordered h = true)
    (d e : JsVal) (data expected : Value) (p : String)
    (hd : represents h d data = true) (he : represents h e expected = true) :
    (assertPropertyValue data p expected h).1 = ApiAssertions.assertPropertyValue d p e := by
  rcases loop_of_represents h p (splitPath p) d data hd with
    ⟨err, h1, h2⟩ | ⟨t1, v1, h1, h2, h3⟩
  · have h4 : assertPropertyValue.loop p (splitPath p) data h
        = (.error err, (assertPropertyValue.loop p (splitPath p) data h).2) := by
      rw [← h2]
    simp only [ApiAssertions.assertPropertyValue, h1, assertPropertyValue, Exec.bind]
    rw [h4]
  · have h4 : assertPropertyValue.loop p (splitPath p) data h
        = (.ok v1, (assertPropertyValue.loop p (splitPath p) data h).2) := by
      rw [← h2]
    have hpre := loop_preserves p (splitPath p) data h
    have heq := strictEq_of_represents h t1 e v1 expected h3 he
    have hs1 := toStr_of_represents h ho e expected he
    have hs2 := toStr_of_represents h ho t1 v1 h3
    simp only [ApiAssertions.assertPropertyValue, h1, assertPropertyValue, Exec.bind]
    rw [h4]
    simp only [hpre, heq]
    cases hq : t1.strictEq e with
    | true => simp [Exec.pure]
    | false =>
      simp only [Bool.not_false, if_true, Exec.bind, Exec.read, hs1, hs2]
      cases template [some "Expected ", some p, some " to be ", e.toStr,
                      some ", but got ", t1.toStr] <;> simp [Exec.throw]

/-- The store `[{c: 5}, {b: ·}, {a: ·}]` is ordered and its last cell stands for the
tree `{a: {b: {c: 5}}}`, so the computation on it has the outcome of the assertion on
the tree. -/
theorem assertPropertyValue_of_represents_nested :
    ordered [.object [("c", .num 5)], .object [("b", .ref 0)], .object [("a", .ref 1)]]
        = true ∧
      represents [.object [("c", .num 5)], .object [("b", .ref 0)], .object [("a", .ref 1)]]
        (.obj 2 [("a", .obj 1 [("b", .obj 0 [("c", .num 5)])])]) (.ref 2) = true ∧
      (assertPropertyValue (.ref 2) "a.b.c" (.num 5)
        [.object [("c", .num 5)], .object [("b", .ref 0)], .object [("a", .ref 1)]]).1
        = ApiAssertions.assertPropertyValue
            (.obj 2 [("a", .obj 1 [("b", .obj 0 [("c", .num 5)])])]) "a.b.c" (.num 5) :=
  ⟨rfl, rfl, assertPropertyValue_of_represents
    [.object [("c", .num 5)], .object [("b", .ref 0)], .object [("a", .ref 1)]] rfl
    (.obj 2 [("a", .obj 1 [("b", .obj 0 [("c", .num 5)])])]) (.num 5) (.ref 2) (.num 5)
    "a.b.c" rfl rfl⟩

end Store
end ApiHarness
